import Mathlib

/-!
Verification of the rule-execution core of deno_lint (rules no_redeclare and
no_setter_return) against its natural-language specification.

The syntax tree, the visitor traversals and the two rules are shallowly
embedded below, translated from src/rules/no_redeclare.rs and
src/rules/no_setter_return.rs together with the swc visitor framework those
files instantiate (default visit = recurse into every child in field order;
noop_visit_type! = type-annotation subtrees are never entered; find_ids =
collect pattern-bound identifiers, skipping expressions and property names).
-/

set_option maxHeartbeats 4000000

namespace DenoLint

/-! ## Data model: spans, identifiers, symbol identities, diagnostics -/

/-- A source-position range, carried by every node that can host a diagnostic. -/
structure Span where
  lo : Nat
  hi : Nat
deriving DecidableEq, Repr

/-- swc Ident: a span, the symbol text, and the SyntaxContext produced by the
upstream resolver.  Two occurrences denote the same binding iff symbol text and
context agree. -/
structure Ident where
  span : Span
  sym : String
  ctxt : Nat
deriving DecidableEq, Repr

/-- swc utils::Id — the Symbol Identity: (symbol text, syntax context). -/
abbrev Id := String × Nat

/-- Ident::to_id() from swc utils::ident::IdentLike. -/
def Ident.to_id (i : Ident) : Id := (i.sym, i.ctxt)

/-- A type-annotation subtree.  Kept minimal: it can hold identifiers, which is
all the two rules could ever (fail to) see in it. -/
inductive TsType where
  | tref : Ident → TsType
deriving DecidableEq, Repr

/-- swc MethodKind. -/
inductive MethodKind where
  | method
  | getter
  | setter
deriving DecidableEq, Repr

/-- swc VarDeclKind (var / let / const). -/
inductive VarDeclKind where
  | varKind
  | letKind
  | constKind
deriving DecidableEq, Repr

/-- A reported problem: span + rule code + message, immutable once created. -/
structure Diagnostic where
  span : Span
  code : String
  message : String
deriving DecidableEq, Repr

/-! ## The syntax tree

A reduced swc AST carrying every construct the two rules and their claims
touch: function declarations with optional bodies, variable declarators with
binding patterns (nested destructuring, defaults, rest), parameters, classes
with methods / private methods / properties (computed keys, values), object
literals with setter / getter / method properties, return statements with
optional argument, blocks, ifs, and type annotations. -/

mutual

inductive Expr where
  | ident : Ident → Expr
  | lit : Nat → Expr
  | fnExpr : Option Ident → Function → Expr
  | object : List JsProp → Expr
  | classExpr : Option Ident → Class → Expr

inductive Function where
  | mk : List Param → Option BlockStmt → Option TsType → Function

inductive Param where
  | mk : Pat → Param

inductive Pat where
  | ident : Ident → Option TsType → Pat
  | array : List (Option Pat) → Pat
  | rest : Pat → Pat
  | object : List ObjectPatProp → Pat
  | assign : Pat → Expr → Pat
  | expr : Expr → Pat

inductive ObjectPatProp where
  | keyValue : PropName → Pat → ObjectPatProp
  | assign : Ident → Option Expr → ObjectPatProp
  | rest : Pat → ObjectPatProp

inductive PropName where
  | ident : Ident → PropName
  | str : String → PropName
  | num : Nat → PropName
  | computed : Expr → PropName

inductive JsProp where
  | shorthand : Ident → JsProp
  | keyValue : PropName → Expr → JsProp
  | getter : PropName → Option BlockStmt → JsProp
  | setter : SetterProp → JsProp
  | method : PropName → Function → JsProp

inductive SetterProp where
  | mk : Span → PropName → Pat → Option BlockStmt → SetterProp

inductive BlockStmt where
  | mk : List Stmt → BlockStmt

inductive Stmt where
  | block : BlockStmt → Stmt
  | expr : Expr → Stmt
  | ret : Span → Option Expr → Stmt
  | ifStmt : Expr → Stmt → Option Stmt → Stmt
  | decl : Decl → Stmt
  | empty : Stmt

inductive Decl where
  | fnDecl : Ident → Function → Decl
  | varDecl : VarDecl → Decl
  | classDecl : Ident → Class → Decl

inductive VarDecl where
  | mk : VarDeclKind → List VarDeclarator → VarDecl

inductive VarDeclarator where
  | mk : Span → Pat → Option Expr → VarDeclarator

inductive Class where
  | mk : List ClassMember → Option Expr → Class

inductive ClassMember where
  | method : ClassMethod → ClassMember
  | privateMethod : PrivateMethod → ClassMember
  | classProp : ClassProp → ClassMember
  | emptyMember : ClassMember

inductive ClassMethod where
  | mk : PropName → Function → MethodKind → ClassMethod

inductive PrivateMethod where
  | mk : String → Function → MethodKind → PrivateMethod

inductive ClassProp where
  | mk : Expr → Option Expr → Bool → Option TsType → ClassProp

end

/-- A module item: a plain statement or an exported declaration. -/
inductive ModuleItem where
  | stmt : Stmt → ModuleItem
  | exportDecl : Decl → ModuleItem

/-- The tree root: module form (supports import/export) or script form. -/
inductive Program where
  | module : List ModuleItem → Program
  | script : List Stmt → Program

/-! ## find_ids (swc utils::find_ids via DestructuringFinder)

Collects every identifier bound by a pattern, however deeply nested, while
skipping expression subtrees (visit_expr is a no-op) and property names
(visit_prop_name is a no-op). -/

mutual

def findIdsPat : Pat → List Ident
  | .ident i _ => [i]
  | .array elems => findIdsElems elems
  | .rest p => findIdsPat p
  | .object props => findIdsProps props
  | .assign left _ => findIdsPat left
  | .expr _ => []

def findIdsElems : List (Option Pat) → List Ident
  | [] => []
  | none :: rest => findIdsElems rest
  | some p :: rest => findIdsPat p ++ findIdsElems rest

def findIdsProps : List ObjectPatProp → List Ident
  | [] => []
  | .keyValue _ p :: rest => findIdsPat p ++ findIdsProps rest
  | .assign i _ :: rest => i :: findIdsProps rest
  | .rest p :: rest => findIdsPat p ++ findIdsProps rest

end

/-! ## Duplicate-Binding Analysis (no_redeclare)

The visitor state: the Binding Set of Symbol Identities observed so far
(HashSet<Id>, modelled as a list used as a set) and the Diagnostic Sink
(Context::add_diagnostic appends). -/

structure RState where
  bindings : List Id
  diags : List Diagnostic
deriving DecidableEq, Repr

/-- The fixed diagnostic no_redeclare emits for identifier i. -/
def redeclareDiag (i : Ident) : Diagnostic :=
  ⟨i.span, "no-redeclare", "Redeclaration is not allowed"⟩

/-- NoRedeclareVisitor::declare: if the identity is already in the Binding Set,
emit a diagnostic at the identifier's span and leave the set unchanged;
otherwise insert it. -/
def declare (st : RState) (i : Ident) : RState :=
  if i.to_id ∈ st.bindings then
    { st with diags := st.diags ++ [redeclareDiag i] }
  else
    { st with bindings := st.bindings ++ [i.to_id] }

/-- The loop `for id in ids { self.declare(&id) }`. -/
def declareAll (st : RState) (ids : List Ident) : RState :=
  ids.foldl declare st

/-! The traversal of NoRedeclareVisitor.  Overridden hooks: visit_fn_decl
(skip entirely when the function has no body, else declare the name and
recurse), visit_var_declarator (declare find_ids of the binding pattern, no
recursion — the initializer is never entered), visit_param (declare find_ids
of the pattern, no recursion), visit_class_prop (enter the key only when
computed, always enter the value).  Every other node gets the default hook:
recurse into every child in field order, except type-annotation subtrees
(noop_visit_type!). -/

mutual

def rvExpr (st : RState) : Expr → RState
  | .ident _ => st
  | .lit _ => st
  | .fnExpr _ f => rvFunction st f
  | .object props => rvJsProps st props
  | .classExpr _ c => rvClass st c

def rvFunction (st : RState) : Function → RState
  | .mk params body _ => rvOptBlock (rvParams st params) body

def rvParams (st : RState) : List Param → RState
  | [] => st
  | p :: rest => rvParams (rvParam st p) rest

def rvParam (st : RState) : Param → RState
  | .mk pat => declareAll st (findIdsPat pat)

def rvOptBlock (st : RState) : Option BlockStmt → RState
  | none => st
  | some b => rvBlock st b

def rvBlock (st : RState) : BlockStmt → RState
  | .mk stmts => rvStmts st stmts

def rvStmts (st : RState) : List Stmt → RState
  | [] => st
  | s :: rest => rvStmts (rvStmt st s) rest

def rvStmt (st : RState) : Stmt → RState
  | .block b => rvBlock st b
  | .expr e => rvExpr st e
  | .ret _ arg => rvOptExpr st arg
  | .ifStmt test cons alt => rvOptStmt (rvStmt (rvExpr st test) cons) alt
  | .decl d => rvDecl st d
  | .empty => st

def rvOptStmt (st : RState) : Option Stmt → RState
  | none => st
  | some s => rvStmt st s

def rvOptExpr (st : RState) : Option Expr → RState
  | none => st
  | some e => rvExpr st e

def rvDecl (st : RState) : Decl → RState
  | .fnDecl i f => rvFnDecl st i f
  | .varDecl v => rvVarDecl st v
  | .classDecl _ c => rvClass st c

def rvFnDecl (st : RState) (i : Ident) : Function → RState
  | .mk _ none _ => st
  | .mk params (some b) _ => rvBlock (rvParams (declare st i) params) b

def rvVarDecl (st : RState) : VarDecl → RState
  | .mk _ decls => rvVarDeclarators st decls

def rvVarDeclarators (st : RState) : List VarDeclarator → RState
  | [] => st
  | d :: rest => rvVarDeclarators (rvVarDeclarator st d) rest

def rvVarDeclarator (st : RState) : VarDeclarator → RState
  | .mk _ name _ => declareAll st (findIdsPat name)

def rvClass (st : RState) : Class → RState
  | .mk members superClass => rvOptExpr (rvClassMembers st members) superClass

def rvClassMembers (st : RState) : List ClassMember → RState
  | [] => st
  | m :: rest => rvClassMembers (rvClassMember st m) rest

def rvClassMember (st : RState) : ClassMember → RState
  | .method (.mk key f _) => rvFunction (rvPropName st key) f
  | .privateMethod (.mk _ f _) => rvFunction st f
  | .classProp p => rvClassProp st p
  | .emptyMember => st

def rvClassProp (st : RState) : ClassProp → RState
  | .mk key value computed _ =>
      rvOptExpr (if computed then rvExpr st key else st) value

def rvPropName (st : RState) : PropName → RState
  | .ident _ => st
  | .str _ => st
  | .num _ => st
  | .computed e => rvExpr st e

def rvJsProps (st : RState) : List JsProp → RState
  | [] => st
  | p :: rest => rvJsProps (rvJsProp st p) rest

def rvJsProp (st : RState) : JsProp → RState
  | .shorthand _ => st
  | .keyValue key value => rvExpr (rvPropName st key) value
  | .getter key body => rvOptBlock (rvPropName st key) body
  | .setter s => rvSetterProp st s
  | .method key f => rvFunction (rvPropName st key) f

def rvSetterProp (st : RState) : SetterProp → RState
  | .mk _ key param body => rvOptBlock (rvPat (rvPropName st key) param) body

def rvPat (st : RState) : Pat → RState
  | .ident _ _ => st
  | .array elems => rvPatElems st elems
  | .rest p => rvPat st p
  | .object props => rvObjectPatProps st props
  | .assign left right => rvExpr (rvPat st left) right
  | .expr e => rvExpr st e

def rvPatElems (st : RState) : List (Option Pat) → RState
  | [] => st
  | none :: rest => rvPatElems st rest
  | some p :: rest => rvPatElems (rvPat st p) rest

def rvObjectPatProps (st : RState) : List ObjectPatProp → RState
  | [] => st
  | p :: rest => rvObjectPatProps (rvObjectPatProp st p) rest

def rvObjectPatProp (st : RState) : ObjectPatProp → RState
  | .keyValue key p => rvPat (rvPropName st key) p
  | .assign _ value => rvOptExpr st value
  | .rest p => rvPat st p

end

def rvModuleItem (st : RState) : ModuleItem → RState
  | .stmt s => rvStmt st s
  | .exportDecl d => rvDecl st d

def rvModuleItems (st : RState) : List ModuleItem → RState
  | [] => st
  | m :: rest => rvModuleItems (rvModuleItem st m) rest

def rvProgram (st : RState) : Program → RState
  | .module items => rvModuleItems st items
  | .script stmts => rvStmts st stmts

/-- NoRedeclare::lint_program: construct a fresh visitor (empty Binding Set)
over the given Diagnostic Sink and traverse the whole program. -/
def noRedeclareLintProgram (sink : List Diagnostic) (p : Program) : List Diagnostic :=
  (rvProgram ⟨[], sink⟩ p).diags

/-- One run of Duplicate-Binding Analysis with a fresh sink. -/
def noRedeclareLint (p : Program) : List Diagnostic :=
  noRedeclareLintProgram [] p

/-! ## Setter-Return Analysis (no_setter_return)

The visitor carries no state beyond the Diagnostic Sink.  Overridden hooks:
visit_class (scan the member list for setter methods with a concrete body and
check each such body; no recursion into anything else) and visit_setter_prop
(check the body when concrete; no recursion).  Every other node gets the
default recursive hook, except type-annotation subtrees. -/

/-- The fixed diagnostic no_setter_return emits for the return statement at
span sp. -/
def setterReturnDiag (sp : Span) : Diagnostic :=
  ⟨sp, "no-setter-return", "Setter cannot return a value"⟩

/-- NoSetterReturnVisitor::check_block_stmt: scan only the statements directly
in the block, reporting each return statement that carries a value. -/
def checkBlockStmt (sink : List Diagnostic) : BlockStmt → List Diagnostic
  | .mk stmts =>
      stmts.foldl
        (fun ds s =>
          match s with
          | .ret sp (some _) => ds ++ [setterReturnDiag sp]
          | _ => ds)
        sink

/-- The per-member scan of visit_class: a public or private method of kind
setter with a concrete body has that body checked; every other member is
skipped. -/
def srScanMember (sink : List Diagnostic) : ClassMember → List Diagnostic
  | .method (.mk _ f kind) =>
      if kind = MethodKind.setter then
        match f with
        | .mk _ (some b) _ => checkBlockStmt sink b
        | .mk _ none _ => sink
      else sink
  | .privateMethod (.mk _ f kind) =>
      if kind = MethodKind.setter then
        match f with
        | .mk _ (some b) _ => checkBlockStmt sink b
        | .mk _ none _ => sink
      else sink
  | .classProp _ => sink
  | .emptyMember => sink

mutual

def srExpr (sink : List Diagnostic) : Expr → List Diagnostic
  | .ident _ => sink
  | .lit _ => sink
  | .fnExpr _ f => srFunction sink f
  | .object props => srJsProps sink props
  | .classExpr _ c => srClass sink c

def srFunction (sink : List Diagnostic) : Function → List Diagnostic
  | .mk params body _ => srOptBlock (srParams sink params) body

def srParams (sink : List Diagnostic) : List Param → List Diagnostic
  | [] => sink
  | p :: rest => srParams (srParam sink p) rest

def srParam (sink : List Diagnostic) : Param → List Diagnostic
  | .mk pat => srPat sink pat

def srOptBlock (sink : List Diagnostic) : Option BlockStmt → List Diagnostic
  | none => sink
  | some b => srBlock sink b

def srBlock (sink : List Diagnostic) : BlockStmt → List Diagnostic
  | .mk stmts => srStmts sink stmts

def srStmts (sink : List Diagnostic) : List Stmt → List Diagnostic
  | [] => sink
  | s :: rest => srStmts (srStmt sink s) rest

def srStmt (sink : List Diagnostic) : Stmt → List Diagnostic
  | .block b => srBlock sink b
  | .expr e => srExpr sink e
  | .ret _ arg => srOptExpr sink arg
  | .ifStmt test cons alt => srOptStmt (srStmt (srExpr sink test) cons) alt
  | .decl d => srDecl sink d
  | .empty => sink

def srOptStmt (sink : List Diagnostic) : Option Stmt → List Diagnostic
  | none => sink
  | some s => srStmt sink s

def srOptExpr (sink : List Diagnostic) : Option Expr → List Diagnostic
  | none => sink
  | some e => srExpr sink e

def srDecl (sink : List Diagnostic) : Decl → List Diagnostic
  | .fnDecl _ f => srFunction sink f
  | .varDecl v => srVarDecl sink v
  | .classDecl _ c => srClass sink c

def srVarDecl (sink : List Diagnostic) : VarDecl → List Diagnostic
  | .mk _ decls => srVarDeclarators sink decls

def srVarDeclarators (sink : List Diagnostic) : List VarDeclarator → List Diagnostic
  | [] => sink
  | d :: rest => srVarDeclarators (srVarDeclarator sink d) rest

def srVarDeclarator (sink : List Diagnostic) : VarDeclarator → List Diagnostic
  | .mk _ name init => srOptExpr (srPat sink name) init

def srClass (sink : List Diagnostic) : Class → List Diagnostic
  | .mk members _ => members.foldl srScanMember sink

def srJsProps (sink : List Diagnostic) : List JsProp → List Diagnostic
  | [] => sink
  | p :: rest => srJsProps (srJsProp sink p) rest

def srJsProp (sink : List Diagnostic) : JsProp → List Diagnostic
  | .shorthand _ => sink
  | .keyValue key value => srExpr (srPropName sink key) value
  | .getter key body => srOptBlock (srPropName sink key) body
  | .setter s => srSetterProp sink s
  | .method key f => srFunction (srPropName sink key) f

def srSetterProp (sink : List Diagnostic) : SetterProp → List Diagnostic
  | .mk _ _ _ (some b) => checkBlockStmt sink b
  | .mk _ _ _ none => sink

def srPropName (sink : List Diagnostic) : PropName → List Diagnostic
  | .ident _ => sink
  | .str _ => sink
  | .num _ => sink
  | .computed e => srExpr sink e

def srPat (sink : List Diagnostic) : Pat → List Diagnostic
  | .ident _ _ => sink
  | .array elems => srPatElems sink elems
  | .rest p => srPat sink p
  | .object props => srObjectPatProps sink props
  | .assign left right => srExpr (srPat sink left) right
  | .expr e => srExpr sink e

def srPatElems (sink : List Diagnostic) : List (Option Pat) → List Diagnostic
  | [] => sink
  | none :: rest => srPatElems sink rest
  | some p :: rest => srPatElems (srPat sink p) rest

def srObjectPatProps (sink : List Diagnostic) : List ObjectPatProp → List Diagnostic
  | [] => sink
  | p :: rest => srObjectPatProps (srObjectPatProp sink p) rest

def srObjectPatProp (sink : List Diagnostic) : ObjectPatProp → List Diagnostic
  | .keyValue key p => srPat (srPropName sink key) p
  | .assign _ value => srOptExpr sink value
  | .rest p => srPat sink p

end

def srModuleItem (sink : List Diagnostic) : ModuleItem → List Diagnostic
  | .stmt s => srStmt sink s
  | .exportDecl d => srDecl sink d

def srModuleItems (sink : List Diagnostic) : List ModuleItem → List Diagnostic
  | [] => sink
  | m :: rest => srModuleItems (srModuleItem sink m) rest

/-- NoSetterReturn::lint_program: dispatch on the module / script root and
traverse with a fresh visitor over the given Diagnostic Sink. -/
def noSetterReturnLintProgram (sink : List Diagnostic) (p : Program) : List Diagnostic :=
  match p with
  | .module items => srModuleItems sink items
  | .script stmts => srStmts sink stmts

/-- One run of Setter-Return Analysis with a fresh sink. -/
def noSetterReturnLint (p : Program) : List Diagnostic :=
  noSetterReturnLintProgram [] p

/-! ## The declaration sequence of Duplicate-Binding Analysis

declsOf* collects, in depth-first pre-order, exactly the identifiers the
NoRedeclareVisitor traversal passes to declare: named function declarations
with a body, find_ids of every variable-declarator binding pattern, and
find_ids of every parameter pattern.  It mirrors the rv* traversal hook by
hook. -/

mutual

def declsOfExpr : Expr → List Ident
  | .ident _ => []
  | .lit _ => []
  | .fnExpr _ f => declsOfFunction f
  | .object props => declsOfJsProps props
  | .classExpr _ c => declsOfClass c

def declsOfFunction : Function → List Ident
  | .mk params body _ => declsOfParams params ++ declsOfOptBlock body

def declsOfParams : List Param → List Ident
  | [] => []
  | p :: rest => declsOfParam p ++ declsOfParams rest

def declsOfParam : Param → List Ident
  | .mk pat => findIdsPat pat

def declsOfOptBlock : Option BlockStmt → List Ident
  | none => []
  | some b => declsOfBlock b

def declsOfBlock : BlockStmt → List Ident
  | .mk stmts => declsOfStmts stmts

def declsOfStmts : List Stmt → List Ident
  | [] => []
  | s :: rest => declsOfStmt s ++ declsOfStmts rest

def declsOfStmt : Stmt → List Ident
  | .block b => declsOfBlock b
  | .expr e => declsOfExpr e
  | .ret _ arg => declsOfOptExpr arg
  | .ifStmt test cons alt => declsOfExpr test ++ declsOfStmt cons ++ declsOfOptStmt alt
  | .decl d => declsOfDecl d
  | .empty => []

def declsOfOptStmt : Option Stmt → List Ident
  | none => []
  | some s => declsOfStmt s

def declsOfOptExpr : Option Expr → List Ident
  | none => []
  | some e => declsOfExpr e

def declsOfDecl : Decl → List Ident
  | .fnDecl i f => declsOfFnDecl i f
  | .varDecl v => declsOfVarDecl v
  | .classDecl _ c => declsOfClass c

def declsOfFnDecl (i : Ident) : Function → List Ident
  | .mk _ none _ => []
  | .mk params (some b) _ => i :: (declsOfParams params ++ declsOfBlock b)

def declsOfVarDecl : VarDecl → List Ident
  | .mk _ decls => declsOfVarDeclarators decls

def declsOfVarDeclarators : List VarDeclarator → List Ident
  | [] => []
  | d :: rest => declsOfVarDeclarator d ++ declsOfVarDeclarators rest

def declsOfVarDeclarator : VarDeclarator → List Ident
  | .mk _ name _ => findIdsPat name

def declsOfClass : Class → List Ident
  | .mk members superClass => declsOfClassMembers members ++ declsOfOptExpr superClass

def declsOfClassMembers : List ClassMember → List Ident
  | [] => []
  | m :: rest => declsOfClassMember m ++ declsOfClassMembers rest

def declsOfClassMember : ClassMember → List Ident
  | .method (.mk key f _) => declsOfPropName key ++ declsOfFunction f
  | .privateMethod (.mk _ f _) => declsOfFunction f
  | .classProp p => declsOfClassProp p
  | .emptyMember => []

def declsOfClassProp : ClassProp → List Ident
  | .mk key value computed _ =>
      (if computed then declsOfExpr key else []) ++ declsOfOptExpr value

def declsOfPropName : PropName → List Ident
  | .ident _ => []
  | .str _ => []
  | .num _ => []
  | .computed e => declsOfExpr e

def declsOfJsProps : List JsProp → List Ident
  | [] => []
  | p :: rest => declsOfJsProp p ++ declsOfJsProps rest

def declsOfJsProp : JsProp → List Ident
  | .shorthand _ => []
  | .keyValue key value => declsOfPropName key ++ declsOfExpr value
  | .getter key body => declsOfPropName key ++ declsOfOptBlock body
  | .setter s => declsOfSetterProp s
  | .method key f => declsOfPropName key ++ declsOfFunction f

def declsOfSetterProp : SetterProp → List Ident
  | .mk _ key param body => declsOfPropName key ++ declsOfPat param ++ declsOfOptBlock body

def declsOfPat : Pat → List Ident
  | .ident _ _ => []
  | .array elems => declsOfPatElems elems
  | .rest p => declsOfPat p
  | .object props => declsOfObjectPatProps props
  | .assign left right => declsOfPat left ++ declsOfExpr right
  | .expr e => declsOfExpr e

def declsOfPatElems : List (Option Pat) → List Ident
  | [] => []
  | none :: rest => declsOfPatElems rest
  | some p :: rest => declsOfPat p ++ declsOfPatElems rest

def declsOfObjectPatProps : List ObjectPatProp → List Ident
  | [] => []
  | p :: rest => declsOfObjectPatProp p ++ declsOfObjectPatProps rest

def declsOfObjectPatProp : ObjectPatProp → List Ident
  | .keyValue key p => declsOfPropName key ++ declsOfPat p
  | .assign _ value => declsOfOptExpr value
  | .rest p => declsOfPat p

end

def declsOfModuleItem : ModuleItem → List Ident
  | .stmt s => declsOfStmt s
  | .exportDecl d => declsOfDecl d

def declsOfModuleItems : List ModuleItem → List Ident
  | [] => []
  | m :: rest => declsOfModuleItem m ++ declsOfModuleItems rest

/-- The depth-first pre-order sequence of declaring identifier occurrences of
one Duplicate-Binding Analysis pass. -/
def declsOfProgram : Program → List Ident
  | .module items => declsOfModuleItems items
  | .script stmts => declsOfStmts stmts

/-- The occurrences declaring Symbol Identity x, in source order. -/
def declOccs (p : Program) (x : Id) : List Ident :=
  (declsOfProgram p).filter (fun i => i.to_id = x)

/-! ## The scanned setter bodies of Setter-Return Analysis

scannedBodiesOf* collects, in traversal order, exactly the concrete setter
bodies the NoSetterReturnVisitor passes to check_block_stmt: setter methods
and private setter methods of a visited class, and visited object-literal
setter properties.  It mirrors the sr* traversal hook by hook — in particular
it does not enter the other members of a class nor the subtree of a setter
property. -/

/-- The bodies check_block_stmt receives from one class's member scan. -/
def scannedOfMember : ClassMember → List BlockStmt
  | .method (.mk _ f kind) =>
      if kind = MethodKind.setter then
        match f with
        | .mk _ (some b) _ => [b]
        | .mk _ none _ => []
      else []
  | .privateMethod (.mk _ f kind) =>
      if kind = MethodKind.setter then
        match f with
        | .mk _ (some b) _ => [b]
        | .mk _ none _ => []
      else []
  | .classProp _ => []
  | .emptyMember => []

mutual

def scannedOfExpr : Expr → List BlockStmt
  | .ident _ => []
  | .lit _ => []
  | .fnExpr _ f => scannedOfFunction f
  | .object props => scannedOfJsProps props
  | .classExpr _ c => scannedOfClass c

def scannedOfFunction : Function → List BlockStmt
  | .mk params body _ => scannedOfParams params ++ scannedOfOptBlock body

def scannedOfParams : List Param → List BlockStmt
  | [] => []
  | p :: rest => scannedOfParam p ++ scannedOfParams rest

def scannedOfParam : Param → List BlockStmt
  | .mk pat => scannedOfPat pat

def scannedOfOptBlock : Option BlockStmt → List BlockStmt
  | none => []
  | some b => scannedOfBlock b

def scannedOfBlock : BlockStmt → List BlockStmt
  | .mk stmts => scannedOfStmts stmts

def scannedOfStmts : List Stmt → List BlockStmt
  | [] => []
  | s :: rest => scannedOfStmt s ++ scannedOfStmts rest

def scannedOfStmt : Stmt → List BlockStmt
  | .block b => scannedOfBlock b
  | .expr e => scannedOfExpr e
  | .ret _ arg => scannedOfOptExpr arg
  | .ifStmt test cons alt =>
      scannedOfExpr test ++ scannedOfStmt cons ++ scannedOfOptStmt alt
  | .decl d => scannedOfDecl d
  | .empty => []

def scannedOfOptStmt : Option Stmt → List BlockStmt
  | none => []
  | some s => scannedOfStmt s

def scannedOfOptExpr : Option Expr → List BlockStmt
  | none => []
  | some e => scannedOfExpr e

def scannedOfDecl : Decl → List BlockStmt
  | .fnDecl _ f => scannedOfFunction f
  | .varDecl v => scannedOfVarDecl v
  | .classDecl _ c => scannedOfClass c

def scannedOfVarDecl : VarDecl → List BlockStmt
  | .mk _ decls => scannedOfVarDeclarators decls

def scannedOfVarDeclarators : List VarDeclarator → List BlockStmt
  | [] => []
  | d :: rest => scannedOfVarDeclarator d ++ scannedOfVarDeclarators rest

def scannedOfVarDeclarator : VarDeclarator → List BlockStmt
  | .mk _ name init => scannedOfPat name ++ scannedOfOptExpr init

def scannedOfClass : Class → List BlockStmt
  | .mk members _ => scannedOfClassMembers members

def scannedOfClassMembers : List ClassMember → List BlockStmt
  | [] => []
  | m :: rest => scannedOfMember m ++ scannedOfClassMembers rest

def scannedOfJsProps : List JsProp → List BlockStmt
  | [] => []
  | p :: rest => scannedOfJsProp p ++ scannedOfJsProps rest

def scannedOfJsProp : JsProp → List BlockStmt
  | .shorthand _ => []
  | .keyValue key value => scannedOfPropName key ++ scannedOfExpr value
  | .getter key body => scannedOfPropName key ++ scannedOfOptBlock body
  | .setter s => scannedOfSetterProp s
  | .method key f => scannedOfPropName key ++ scannedOfFunction f

def scannedOfSetterProp : SetterProp → List BlockStmt
  | .mk _ _ _ (some b) => [b]
  | .mk _ _ _ none => []

def scannedOfPropName : PropName → List BlockStmt
  | .ident _ => []
  | .str _ => []
  | .num _ => []
  | .computed e => scannedOfExpr e

def scannedOfPat : Pat → List BlockStmt
  | .ident _ _ => []
  | .array elems => scannedOfPatElems elems
  | .rest p => scannedOfPat p
  | .object props => scannedOfObjectPatProps props
  | .assign left right => scannedOfPat left ++ scannedOfExpr right
  | .expr e => scannedOfExpr e

def scannedOfPatElems : List (Option Pat) → List BlockStmt
  | [] => []
  | none :: rest => scannedOfPatElems rest
  | some p :: rest => scannedOfPat p ++ scannedOfPatElems rest

def scannedOfObjectPatProps : List ObjectPatProp → List BlockStmt
  | [] => []
  | p :: rest => scannedOfObjectPatProp p ++ scannedOfObjectPatProps rest

def scannedOfObjectPatProp : ObjectPatProp → List BlockStmt
  | .keyValue key p => scannedOfPropName key ++ scannedOfPat p
  | .assign _ value => scannedOfOptExpr value
  | .rest p => scannedOfPat p

end

def scannedOfModuleItem : ModuleItem → List BlockStmt
  | .stmt s => scannedOfStmt s
  | .exportDecl d => scannedOfDecl d

def scannedOfModuleItems : List ModuleItem → List BlockStmt
  | [] => []
  | m :: rest => scannedOfModuleItem m ++ scannedOfModuleItems rest

/-- The setter bodies one Setter-Return Analysis pass checks, in order. -/
def scannedOfProgram : Program → List BlockStmt
  | .module items => scannedOfModuleItems items
  | .script stmts => scannedOfStmts stmts

/-- The spans of the top-level value-carrying return statements of a block. -/
def topRetArgSpans : BlockStmt → List Span
  | .mk stmts =>
      stmts.filterMap
        (fun s =>
          match s with
          | .ret sp (some _) => some sp
          | _ => none)

/-- The spans of the top-level bare (value-less) return statements of a block. -/
def topBareRetSpans : BlockStmt → List Span
  | .mk stmts =>
      stmts.filterMap
        (fun s =>
          match s with
          | .ret sp none => some sp
          | _ => none)

/-! ## Behaviour of a declare sequence

dupsFrom seen l: the occurrences of l whose identity was already seen when
their turn came — exactly the occurrences declare flags.  newIdsFrom seen l:
the identities declare inserts. -/

def dupsFrom : List Id → List Ident → List Ident
  | _, [] => []
  | seen, i :: rest =>
      if i.to_id ∈ seen then i :: dupsFrom seen rest
      else dupsFrom (seen ++ [i.to_id]) rest

def newIdsFrom : List Id → List Ident → List Id
  | _, [] => []
  | seen, i :: rest =>
      if i.to_id ∈ seen then newIdsFrom seen rest
      else i.to_id :: newIdsFrom (seen ++ [i.to_id]) rest

theorem declareAll_nil (st : RState) : declareAll st [] = st := rfl

theorem declareAll_cons (st : RState) (i : Ident) (l : List Ident) :
    declareAll st (i :: l) = declareAll (declare st i) l := rfl

theorem declareAll_append (st : RState) (l₁ l₂ : List Ident) :
    declareAll st (l₁ ++ l₂) = declareAll (declareAll st l₁) l₂ := by
  simp [declareAll, List.foldl_append]

theorem declare_of_mem {st : RState} {i : Ident} (h : i.to_id ∈ st.bindings) :
    declare st i = { st with diags := st.diags ++ [redeclareDiag i] } := by
  simp [declare, h]

theorem declare_of_not_mem {st : RState} {i : Ident} (h : i.to_id ∉ st.bindings) :
    declare st i = { st with bindings := st.bindings ++ [i.to_id] } := by
  simp [declare, h]

theorem declareAll_diags : ∀ (l : List Ident) (st : RState),
    (declareAll st l).diags = st.diags ++ (dupsFrom st.bindings l).map redeclareDiag
  | [], st => by simp [declareAll, dupsFrom]
  | i :: l, st => by
      rw [declareAll_cons, declareAll_diags l (declare st i)]
      by_cases h : i.to_id ∈ st.bindings
      · rw [declare_of_mem h]
        simp [dupsFrom, h]
      · rw [declare_of_not_mem h]
        simp [dupsFrom, h]

theorem declareAll_bindings : ∀ (l : List Ident) (st : RState),
    (declareAll st l).bindings = st.bindings ++ newIdsFrom st.bindings l
  | [], st => by simp [declareAll, newIdsFrom]
  | i :: l, st => by
      rw [declareAll_cons, declareAll_bindings l (declare st i)]
      by_cases h : i.to_id ∈ st.bindings
      · rw [declare_of_mem h]
        simp [newIdsFrom, h]
      · rw [declare_of_not_mem h]
        simp [newIdsFrom, h]

theorem dupsFrom_subset : ∀ (seen : List Id) (l : List Ident), dupsFrom seen l ⊆ l
  | _, [] => by simp [dupsFrom]
  | seen, i :: l => by
      by_cases h : i.to_id ∈ seen
      · simp only [dupsFrom, if_pos h]
        exact List.cons_subset_cons i (dupsFrom_subset seen l)
      · simp only [dupsFrom, if_neg h]
        exact List.Subset.trans (dupsFrom_subset (seen ++ [i.to_id]) l)
          (List.subset_cons_self i l)

/-- Filtering a declare sequence's flagged occurrences down to one identity x:
when x was already seen at the start, every occurrence of x is flagged; when
not, all but the first are. -/
theorem dupsFrom_filter (x : Id) : ∀ (l : List Ident) (seen : List Id),
    (dupsFrom seen l).filter (fun i => i.to_id = x)
      = if x ∈ seen then l.filter (fun i => i.to_id = x)
        else (l.filter (fun i => i.to_id = x)).tail
  | [], seen => by simp [dupsFrom]
  | i :: l, seen => by
      by_cases hseen : i.to_id ∈ seen
      · by_cases hx : i.to_id = x
        · have hxseen : x ∈ seen := hx ▸ hseen
          have ih := dupsFrom_filter x l seen
          simp [dupsFrom, hseen, hx, hxseen, List.filter_cons, ih]
        · have ih := dupsFrom_filter x l seen
          simp [dupsFrom, hseen, hx, List.filter_cons, ih]
      · by_cases hx : i.to_id = x
        · have hxseen : x ∉ seen := fun hc => hseen (hx ▸ hc)
          have ih := dupsFrom_filter x l (seen ++ [i.to_id])
          simp only [hx] at ih
          have hx2 : x ∈ seen ++ [x] := by simp
          simp [dupsFrom, hseen, hx, hxseen, hx2, List.filter_cons, ih]
        · have ih := dupsFrom_filter x l (seen ++ [i.to_id])
          have hmm : (x ∈ seen ++ [i.to_id]) ↔ x ∈ seen := by
            simp only [List.mem_append, List.mem_singleton]
            constructor
            · rintro (hc | hc)
              · exact hc
              · exact absurd hc.symm hx
            · exact Or.inl
          simp only [hmm] at ih
          simp [dupsFrom, hseen, hx, List.filter_cons, ih]

/-- A declare sequence over pairwise-distinct, fresh identities flags
nothing. -/
theorem dupsFrom_eq_nil : ∀ (l : List Ident) (seen : List Id),
    (l.map Ident.to_id).Nodup → (∀ i ∈ l, i.to_id ∉ seen) → dupsFrom seen l = []
  | [], _, _, _ => by simp [dupsFrom]
  | i :: l, seen, hnodup, hfresh => by
      have h := hnodup
      rw [List.map_cons, List.nodup_cons] at h
      have hi : i.to_id ∉ seen := hfresh i (by simp)
      simp only [dupsFrom, if_neg hi]
      apply dupsFrom_eq_nil l (seen ++ [i.to_id]) h.2
      intro j hj
      simp only [List.mem_append, List.mem_singleton]
      rintro (hc | hc)
      · exact hfresh j (List.mem_cons_of_mem i hj) hc
      · exact h.1 (hc ▸ List.mem_map_of_mem Ident.to_id hj)

/-! ## Factorization: the NoRedeclareVisitor traversal is the declare fold of
its pre-order declaration sequence.  The Binding Set never influences which
nodes are visited, so the stateful traversal and the pure collector agree. -/

mutual

theorem rvExpr_eq : ∀ (e : Expr) (st : RState), rvExpr st e = declareAll st (declsOfExpr e)
  | .ident _, st => by simp [rvExpr, declsOfExpr, declareAll_nil]
  | .lit _, st => by simp [rvExpr, declsOfExpr, declareAll_nil]
  | .fnExpr _ f, st => by
      have h1 := rvFunction_eq f st
      simp [rvExpr, declsOfExpr, h1]
  | .object props, st => by
      have h1 := rvJsProps_eq props st
      simp [rvExpr, declsOfExpr, h1]
  | .classExpr _ c, st => by
      have h1 := rvClass_eq c st
      simp [rvExpr, declsOfExpr, h1]

theorem rvFunction_eq : ∀ (f : Function) (st : RState),
    rvFunction st f = declareAll st (declsOfFunction f)
  | .mk params body _, st => by
      have h1 := rvParams_eq params st
      have h2 := rvOptBlock_eq body (rvParams st params)
      rw [h1] at h2
      simp [rvFunction, declsOfFunction, declareAll_append, h2, h1]

theorem rvParams_eq : ∀ (l : List Param) (st : RState),
    rvParams st l = declareAll st (declsOfParams l)
  | [], st => by simp [rvParams, declsOfParams, declareAll_nil]
  | p :: rest, st => by
      have h1 := rvParam_eq p st
      have h2 := rvParams_eq rest (rvParam st p)
      rw [h1] at h2
      simp [rvParams, declsOfParams, declareAll_append, h2, h1]

theorem rvParam_eq : ∀ (p : Param) (st : RState),
    rvParam st p = declareAll st (declsOfParam p)
  | .mk pat, st => by simp [rvParam, declsOfParam]

theorem rvOptBlock_eq : ∀ (b : Option BlockStmt) (st : RState),
    rvOptBlock st b = declareAll st (declsOfOptBlock b)
  | none, st => by simp [rvOptBlock, declsOfOptBlock, declareAll_nil]
  | some b, st => by
      have h1 := rvBlock_eq b st
      simp [rvOptBlock, declsOfOptBlock, h1]

theorem rvBlock_eq : ∀ (b : BlockStmt) (st : RState),
    rvBlock st b = declareAll st (declsOfBlock b)
  | .mk stmts, st => by
      have h1 := rvStmts_eq stmts st
      simp [rvBlock, declsOfBlock, h1]

theorem rvStmts_eq : ∀ (l : List Stmt) (st : RState),
    rvStmts st l = declareAll st (declsOfStmts l)
  | [], st => by simp [rvStmts, declsOfStmts, declareAll_nil]
  | s :: rest, st => by
      have h1 := rvStmt_eq s st
      have h2 := rvStmts_eq rest (rvStmt st s)
      rw [h1] at h2
      simp [rvStmts, declsOfStmts, declareAll_append, h2, h1]

theorem rvStmt_eq : ∀ (s : Stmt) (st : RState),
    rvStmt st s = declareAll st (declsOfStmt s)
  | .block b, st => by
      have h1 := rvBlock_eq b st
      simp [rvStmt, declsOfStmt, h1]
  | .expr e, st => by
      have h1 := rvExpr_eq e st
      simp [rvStmt, declsOfStmt, h1]
  | .ret _ arg, st => by
      have h1 := rvOptExpr_eq arg st
      simp [rvStmt, declsOfStmt, h1]
  | .ifStmt test cons alt, st => by
      have h1 := rvExpr_eq test st
      have h2 := rvStmt_eq cons (rvExpr st test)
      have h3 := rvOptStmt_eq alt (rvStmt (rvExpr st test) cons)
      rw [h1] at h2 h3
      rw [h2] at h3
      simp [rvStmt, declsOfStmt, declareAll_append, h3, h2, h1]
  | .decl d, st => by
      have h1 := rvDecl_eq d st
      simp [rvStmt, declsOfStmt, h1]
  | .empty, st => by simp [rvStmt, declsOfStmt, declareAll_nil]

theorem rvOptStmt_eq : ∀ (s : Option Stmt) (st : RState),
    rvOptStmt st s = declareAll st (declsOfOptStmt s)
  | none, st => by simp [rvOptStmt, declsOfOptStmt, declareAll_nil]
  | some s, st => by
      have h1 := rvStmt_eq s st
      simp [rvOptStmt, declsOfOptStmt, h1]

theorem rvOptExpr_eq : ∀ (e : Option Expr) (st : RState),
    rvOptExpr st e = declareAll st (declsOfOptExpr e)
  | none, st => by simp [rvOptExpr, declsOfOptExpr, declareAll_nil]
  | some e, st => by
      have h1 := rvExpr_eq e st
      simp [rvOptExpr, declsOfOptExpr, h1]

theorem rvDecl_eq : ∀ (d : Decl) (st : RState),
    rvDecl st d = declareAll st (declsOfDecl d)
  | .fnDecl i f, st => by
      have h1 := rvFnDecl_eq f i st
      simp [rvDecl, declsOfDecl, h1]
  | .varDecl v, st => by
      have h1 := rvVarDecl_eq v st
      simp [rvDecl, declsOfDecl, h1]
  | .classDecl _ c, st => by
      have h1 := rvClass_eq c st
      simp [rvDecl, declsOfDecl, h1]

theorem rvFnDecl_eq : ∀ (f : Function) (i : Ident) (st : RState),
    rvFnDecl st i f = declareAll st (declsOfFnDecl i f)
  | .mk _ none _, _, st => by simp [rvFnDecl, declsOfFnDecl, declareAll_nil]
  | .mk params (some b) _, i, st => by
      have h1 := rvParams_eq params (declare st i)
      have h2 := rvBlock_eq b (rvParams (declare st i) params)
      rw [h1] at h2
      simp [rvFnDecl, declsOfFnDecl, declareAll_cons, declareAll_append, h2, h1]

theorem rvVarDecl_eq : ∀ (v : VarDecl) (st : RState),
    rvVarDecl st v = declareAll st (declsOfVarDecl v)
  | .mk _ decls, st => by
      have h1 := rvVarDeclarators_eq decls st
      simp [rvVarDecl, declsOfVarDecl, h1]

theorem rvVarDeclarators_eq : ∀ (l : List VarDeclarator) (st : RState),
    rvVarDeclarators st l = declareAll st (declsOfVarDeclarators l)
  | [], st => by simp [rvVarDeclarators, declsOfVarDeclarators, declareAll_nil]
  | d :: rest, st => by
      have h1 := rvVarDeclarator_eq d st
      have h2 := rvVarDeclarators_eq rest (rvVarDeclarator st d)
      rw [h1] at h2
      simp [rvVarDeclarators, declsOfVarDeclarators, declareAll_append, h2, h1]

theorem rvVarDeclarator_eq : ∀ (d : VarDeclarator) (st : RState),
    rvVarDeclarator st d = declareAll st (declsOfVarDeclarator d)
  | .mk _ name _, st => by simp [rvVarDeclarator, declsOfVarDeclarator]

theorem rvClass_eq : ∀ (c : Class) (st : RState),
    rvClass st c = declareAll st (declsOfClass c)
  | .mk members superClass, st => by
      have h1 := rvClassMembers_eq members st
      have h2 := rvOptExpr_eq superClass (rvClassMembers st members)
      rw [h1] at h2
      simp [rvClass, declsOfClass, declareAll_append, h2, h1]

theorem rvClassMembers_eq : ∀ (l : List ClassMember) (st : RState),
    rvClassMembers st l = declareAll st (declsOfClassMembers l)
  | [], st => by simp [rvClassMembers, declsOfClassMembers, declareAll_nil]
  | m :: rest, st => by
      have h1 := rvClassMember_eq m st
      have h2 := rvClassMembers_eq rest (rvClassMember st m)
      rw [h1] at h2
      simp [rvClassMembers, declsOfClassMembers, declareAll_append, h2, h1]

theorem rvClassMember_eq : ∀ (m : ClassMember) (st : RState),
    rvClassMember st m = declareAll st (declsOfClassMember m)
  | .method (.mk key f _), st => by
      have h1 := rvPropName_eq key st
      have h2 := rvFunction_eq f (rvPropName st key)
      rw [h1] at h2
      simp [rvClassMember, declsOfClassMember, declareAll_append, h2, h1]
  | .privateMethod (.mk _ f _), st => by
      have h1 := rvFunction_eq f st
      simp [rvClassMember, declsOfClassMember, h1]
  | .classProp p, st => by
      have h1 := rvClassProp_eq p st
      simp [rvClassMember, declsOfClassMember, h1]
  | .emptyMember, st => by simp [rvClassMember, declsOfClassMember, declareAll_nil]

theorem rvClassProp_eq : ∀ (p : ClassProp) (st : RState),
    rvClassProp st p = declareAll st (declsOfClassProp p)
  | .mk key value computed _, st => by
      cases computed
      · have h1 := rvOptExpr_eq value st
        simp [rvClassProp, declsOfClassProp, h1]
      · have h1 := rvExpr_eq key st
        have h2 := rvOptExpr_eq value (rvExpr st key)
        rw [h1] at h2
        simp [rvClassProp, declsOfClassProp, declareAll_append, h2, h1]

theorem rvPropName_eq : ∀ (k : PropName) (st : RState),
    rvPropName st k = declareAll st (declsOfPropName k)
  | .ident _, st => by simp [rvPropName, declsOfPropName, declareAll_nil]
  | .str _, st => by simp [rvPropName, declsOfPropName, declareAll_nil]
  | .num _, st => by simp [rvPropName, declsOfPropName, declareAll_nil]
  | .computed e, st => by
      have h1 := rvExpr_eq e st
      simp [rvPropName, declsOfPropName, h1]

theorem rvJsProps_eq : ∀ (l : List JsProp) (st : RState),
    rvJsProps st l = declareAll st (declsOfJsProps l)
  | [], st => by simp [rvJsProps, declsOfJsProps, declareAll_nil]
  | p :: rest, st => by
      have h1 := rvJsProp_eq p st
      have h2 := rvJsProps_eq rest (rvJsProp st p)
      rw [h1] at h2
      simp [rvJsProps, declsOfJsProps, declareAll_append, h2, h1]

theorem rvJsProp_eq : ∀ (p : JsProp) (st : RState),
    rvJsProp st p = declareAll st (declsOfJsProp p)
  | .shorthand _, st => by simp [rvJsProp, declsOfJsProp, declareAll_nil]
  | .keyValue key value, st => by
      have h1 := rvPropName_eq key st
      have h2 := rvExpr_eq value (rvPropName st key)
      rw [h1] at h2
      simp [rvJsProp, declsOfJsProp, declareAll_append, h2, h1]
  | .getter key body, st => by
      have h1 := rvPropName_eq key st
      have h2 := rvOptBlock_eq body (rvPropName st key)
      rw [h1] at h2
      simp [rvJsProp, declsOfJsProp, declareAll_append, h2, h1]
  | .setter s, st => by
      have h1 := rvSetterProp_eq s st
      simp [rvJsProp, declsOfJsProp, h1]
  | .method key f, st => by
      have h1 := rvPropName_eq key st
      have h2 := rvFunction_eq f (rvPropName st key)
      rw [h1] at h2
      simp [rvJsProp, declsOfJsProp, declareAll_append, h2, h1]

theorem rvSetterProp_eq : ∀ (s : SetterProp) (st : RState),
    rvSetterProp st s = declareAll st (declsOfSetterProp s)
  | .mk _ key param body, st => by
      have h1 := rvPropName_eq key st
      have h2 := rvPat_eq param (rvPropName st key)
      have h3 := rvOptBlock_eq body (rvPat (rvPropName st key) param)
      rw [h1] at h2 h3
      rw [h2] at h3
      simp [rvSetterProp, declsOfSetterProp, declareAll_append, h3, h2, h1]

theorem rvPat_eq : ∀ (p : Pat) (st : RState),
    rvPat st p = declareAll st (declsOfPat p)
  | .ident _ _, st => by simp [rvPat, declsOfPat, declareAll_nil]
  | .array elems, st => by
      have h1 := rvPatElems_eq elems st
      simp [rvPat, declsOfPat, h1]
  | .rest p, st => by
      have h1 := rvPat_eq p st
      simp [rvPat, declsOfPat, h1]
  | .object props, st => by
      have h1 := rvObjectPatProps_eq props st
      simp [rvPat, declsOfPat, h1]
  | .assign left right, st => by
      have h1 := rvPat_eq left st
      have h2 := rvExpr_eq right (rvPat st left)
      rw [h1] at h2
      simp [rvPat, declsOfPat, declareAll_append, h2, h1]
  | .expr e, st => by
      have h1 := rvExpr_eq e st
      simp [rvPat, declsOfPat, h1]

theorem rvPatElems_eq : ∀ (l : List (Option Pat)) (st : RState),
    rvPatElems st l = declareAll st (declsOfPatElems l)
  | [], st => by simp [rvPatElems, declsOfPatElems, declareAll_nil]
  | none :: rest, st => by
      have h1 := rvPatElems_eq rest st
      simp [rvPatElems, declsOfPatElems, h1]
  | some p :: rest, st => by
      have h1 := rvPat_eq p st
      have h2 := rvPatElems_eq rest (rvPat st p)
      rw [h1] at h2
      simp [rvPatElems, declsOfPatElems, declareAll_append, h2, h1]

theorem rvObjectPatProps_eq : ∀ (l : List ObjectPatProp) (st : RState),
    rvObjectPatProps st l = declareAll st (declsOfObjectPatProps l)
  | [], st => by simp [rvObjectPatProps, declsOfObjectPatProps, declareAll_nil]
  | p :: rest, st => by
      have h1 := rvObjectPatProp_eq p st
      have h2 := rvObjectPatProps_eq rest (rvObjectPatProp st p)
      rw [h1] at h2
      simp [rvObjectPatProps, declsOfObjectPatProps, declareAll_append, h2, h1]

theorem rvObjectPatProp_eq : ∀ (p : ObjectPatProp) (st : RState),
    rvObjectPatProp st p = declareAll st (declsOfObjectPatProp p)
  | .keyValue key p, st => by
      have h1 := rvPropName_eq key st
      have h2 := rvPat_eq p (rvPropName st key)
      rw [h1] at h2
      simp [rvObjectPatProp, declsOfObjectPatProp, declareAll_append, h2, h1]
  | .assign _ value, st => by
      have h1 := rvOptExpr_eq value st
      simp [rvObjectPatProp, declsOfObjectPatProp, h1]
  | .rest p, st => by
      have h1 := rvPat_eq p st
      simp [rvObjectPatProp, declsOfObjectPatProp, h1]

end

theorem rvModuleItem_eq : ∀ (m : ModuleItem) (st : RState),
    rvModuleItem st m = declareAll st (declsOfModuleItem m)
  | .stmt s, st => by simp [rvModuleItem, declsOfModuleItem, rvStmt_eq]
  | .exportDecl d, st => by simp [rvModuleItem, declsOfModuleItem, rvDecl_eq]

theorem rvModuleItems_eq : ∀ (l : List ModuleItem) (st : RState),
    rvModuleItems st l = declareAll st (declsOfModuleItems l)
  | [], st => by simp [rvModuleItems, declsOfModuleItems, declareAll_nil]
  | m :: rest, st => by
      have h1 := rvModuleItem_eq m st
      have h2 := rvModuleItems_eq rest (rvModuleItem st m)
      rw [h1] at h2
      simp [rvModuleItems, declsOfModuleItems, declareAll_append, h2, h1]

theorem rvProgram_eq (p : Program) (st : RState) :
    rvProgram st p = declareAll st (declsOfProgram p) := by
  cases p
  · simp [rvProgram, declsOfProgram, rvModuleItems_eq]
  · simp [rvProgram, declsOfProgram, rvStmts_eq]

/-- The output of one Duplicate-Binding Analysis pass over any sink: the prior
sink content followed by one diagnostic per flagged (already-seen) declaring
occurrence, in pre-order. -/
theorem noRedeclareLintProgram_eq (sink : List Diagnostic) (p : Program) :
    noRedeclareLintProgram sink p
      = sink ++ (dupsFrom [] (declsOfProgram p)).map redeclareDiag := by
  rw [noRedeclareLintProgram, rvProgram_eq]
  rw [declareAll_diags]

theorem noRedeclareLint_eq (p : Program) :
    noRedeclareLint p = (dupsFrom [] (declsOfProgram p)).map redeclareDiag := by
  rw [noRedeclareLint, noRedeclareLintProgram_eq]
  simp

/-! ## Factorization for Setter-Return Analysis: the traversal appends, per
scanned setter body in order, one diagnostic per top-level value-carrying
return statement of that body. -/

/-- The diagnostics check_block_stmt emits for one body over an empty sink. -/
def bodyDiags (b : BlockStmt) : List Diagnostic :=
  (topRetArgSpans b).map setterReturnDiag

/-- The concatenation of the per-body diagnostics of a body list. -/
def bodiesDiags : List BlockStmt → List Diagnostic
  | [] => []
  | b :: rest => bodyDiags b ++ bodiesDiags rest

theorem bodiesDiags_append : ∀ (l₁ l₂ : List BlockStmt),
    bodiesDiags (l₁ ++ l₂) = bodiesDiags l₁ ++ bodiesDiags l₂
  | [], l₂ => by simp [bodiesDiags]
  | b :: rest, l₂ => by
      simp [bodiesDiags, bodiesDiags_append rest l₂]

theorem checkStmtsFold_eq : ∀ (stmts : List Stmt) (sink : List Diagnostic),
    checkBlockStmt sink (.mk stmts) = sink ++ bodyDiags (.mk stmts)
  | [], sink => by simp [checkBlockStmt, bodyDiags, topRetArgSpans]
  | .ret sp (some e) :: rest, sink => by
      have ih := checkStmtsFold_eq rest (sink ++ [setterReturnDiag sp])
      simp only [checkBlockStmt, bodyDiags, topRetArgSpans, List.filterMap_cons,
        List.foldl_cons] at ih ⊢
      simp only [List.map_cons] at ih ⊢
      rw [ih]
      simp
  | .ret sp none :: rest, sink => by
      have ih := checkStmtsFold_eq rest sink
      simp only [checkBlockStmt, bodyDiags, topRetArgSpans, List.filterMap_cons,
        List.foldl_cons] at ih ⊢
      exact ih
  | .block b :: rest, sink => by
      have ih := checkStmtsFold_eq rest sink
      simp only [checkBlockStmt, bodyDiags, topRetArgSpans, List.filterMap_cons,
        List.foldl_cons] at ih ⊢
      exact ih
  | .expr e :: rest, sink => by
      have ih := checkStmtsFold_eq rest sink
      simp only [checkBlockStmt, bodyDiags, topRetArgSpans, List.filterMap_cons,
        List.foldl_cons] at ih ⊢
      exact ih
  | .ifStmt t c a :: rest, sink => by
      have ih := checkStmtsFold_eq rest sink
      simp only [checkBlockStmt, bodyDiags, topRetArgSpans, List.filterMap_cons,
        List.foldl_cons] at ih ⊢
      exact ih
  | .decl d :: rest, sink => by
      have ih := checkStmtsFold_eq rest sink
      simp only [checkBlockStmt, bodyDiags, topRetArgSpans, List.filterMap_cons,
        List.foldl_cons] at ih ⊢
      exact ih
  | .empty :: rest, sink => by
      have ih := checkStmtsFold_eq rest sink
      simp only [checkBlockStmt, bodyDiags, topRetArgSpans, List.filterMap_cons,
        List.foldl_cons] at ih ⊢
      exact ih

theorem checkBlockStmt_eq (sink : List Diagnostic) (b : BlockStmt) :
    checkBlockStmt sink b = sink ++ bodyDiags b := by
  cases b
  exact checkStmtsFold_eq _ _

theorem srScanMember_eq : ∀ (m : ClassMember) (sink : List Diagnostic),
    srScanMember sink m = sink ++ bodiesDiags (scannedOfMember m)
  | .method (.mk key f kind), sink => by
      cases f with
      | mk params body rt =>
          by_cases hk : kind = MethodKind.setter
          · cases body
            · simp [srScanMember, scannedOfMember, hk, bodiesDiags]
            · simp [srScanMember, scannedOfMember, hk, bodiesDiags, checkBlockStmt_eq]
          · simp [srScanMember, scannedOfMember, hk, bodiesDiags]
  | .privateMethod (.mk key f kind), sink => by
      cases f with
      | mk params body rt =>
          by_cases hk : kind = MethodKind.setter
          · cases body
            · simp [srScanMember, scannedOfMember, hk, bodiesDiags]
            · simp [srScanMember, scannedOfMember, hk, bodiesDiags, checkBlockStmt_eq]
          · simp [srScanMember, scannedOfMember, hk, bodiesDiags]
  | .classProp p, sink => by simp [srScanMember, scannedOfMember, bodiesDiags]
  | .emptyMember, sink => by simp [srScanMember, scannedOfMember, bodiesDiags]

theorem srScanMembers_eq : ∀ (members : List ClassMember) (sink : List Diagnostic),
    members.foldl srScanMember sink = sink ++ bodiesDiags (scannedOfClassMembers members)
  | [], sink => by simp [scannedOfClassMembers, bodiesDiags]
  | m :: rest, sink => by
      have h1 := srScanMember_eq m sink
      have h2 := srScanMembers_eq rest (srScanMember sink m)
      rw [h1] at h2
      simp [scannedOfClassMembers, bodiesDiags_append, h2, h1]

mutual

theorem srExpr_eq : ∀ (e : Expr) (sink : List Diagnostic),
    srExpr sink e = sink ++ bodiesDiags (scannedOfExpr e)
  | .ident _, sink => by simp [srExpr, scannedOfExpr, bodiesDiags]
  | .lit _, sink => by simp [srExpr, scannedOfExpr, bodiesDiags]
  | .fnExpr _ f, sink => by
      have h1 := srFunction_eq f sink
      simp [srExpr, scannedOfExpr, h1]
  | .object props, sink => by
      have h1 := srJsProps_eq props sink
      simp [srExpr, scannedOfExpr, h1]
  | .classExpr _ c, sink => by
      have h1 := srClass_eq c sink
      simp [srExpr, scannedOfExpr, h1]

theorem srFunction_eq : ∀ (f : Function) (sink : List Diagnostic),
    srFunction sink f = sink ++ bodiesDiags (scannedOfFunction f)
  | .mk params body _, sink => by
      have h1 := srParams_eq params sink
      have h2 := srOptBlock_eq body (srParams sink params)
      rw [h1] at h2
      simp [srFunction, scannedOfFunction, bodiesDiags_append, h2, h1]

theorem srParams_eq : ∀ (l : List Param) (sink : List Diagnostic),
    srParams sink l = sink ++ bodiesDiags (scannedOfParams l)
  | [], sink => by simp [srParams, scannedOfParams, bodiesDiags]
  | p :: rest, sink => by
      have h1 := srParam_eq p sink
      have h2 := srParams_eq rest (srParam sink p)
      rw [h1] at h2
      simp [srParams, scannedOfParams, bodiesDiags_append, h2, h1]

theorem srParam_eq : ∀ (p : Param) (sink : List Diagnostic),
    srParam sink p = sink ++ bodiesDiags (scannedOfParam p)
  | .mk pat, sink => by
      have h1 := srPat_eq pat sink
      simp [srParam, scannedOfParam, h1]

theorem srOptBlock_eq : ∀ (b : Option BlockStmt) (sink : List Diagnostic),
    srOptBlock sink b = sink ++ bodiesDiags (scannedOfOptBlock b)
  | none, sink => by simp [srOptBlock, scannedOfOptBlock, bodiesDiags]
  | some b, sink => by
      have h1 := srBlock_eq b sink
      simp [srOptBlock, scannedOfOptBlock, h1]

theorem srBlock_eq : ∀ (b : BlockStmt) (sink : List Diagnostic),
    srBlock sink b = sink ++ bodiesDiags (scannedOfBlock b)
  | .mk stmts, sink => by
      have h1 := srStmts_eq stmts sink
      simp [srBlock, scannedOfBlock, h1]

theorem srStmts_eq : ∀ (l : List Stmt) (sink : List Diagnostic),
    srStmts sink l = sink ++ bodiesDiags (scannedOfStmts l)
  | [], sink => by simp [srStmts, scannedOfStmts, bodiesDiags]
  | s :: rest, sink => by
      have h1 := srStmt_eq s sink
      have h2 := srStmts_eq rest (srStmt sink s)
      rw [h1] at h2
      simp [srStmts, scannedOfStmts, bodiesDiags_append, h2, h1]

theorem srStmt_eq : ∀ (s : Stmt) (sink : List Diagnostic),
    srStmt sink s = sink ++ bodiesDiags (scannedOfStmt s)
  | .block b, sink => by
      have h1 := srBlock_eq b sink
      simp [srStmt, scannedOfStmt, h1]
  | .expr e, sink => by
      have h1 := srExpr_eq e sink
      simp [srStmt, scannedOfStmt, h1]
  | .ret _ arg, sink => by
      have h1 := srOptExpr_eq arg sink
      simp [srStmt, scannedOfStmt, h1]
  | .ifStmt test cons alt, sink => by
      have h1 := srExpr_eq test sink
      have h2 := srStmt_eq cons (srExpr sink test)
      have h3 := srOptStmt_eq alt (srStmt (srExpr sink test) cons)
      rw [h1] at h2 h3
      rw [h2] at h3
      simp only [List.append_assoc] at h2 h3
      simp [srStmt, scannedOfStmt, bodiesDiags_append, h3, h2, h1]
  | .decl d, sink => by
      have h1 := srDecl_eq d sink
      simp [srStmt, scannedOfStmt, h1]
  | .empty, sink => by simp [srStmt, scannedOfStmt, bodiesDiags]

theorem srOptStmt_eq : ∀ (s : Option Stmt) (sink : List Diagnostic),
    srOptStmt sink s = sink ++ bodiesDiags (scannedOfOptStmt s)
  | none, sink => by simp [srOptStmt, scannedOfOptStmt, bodiesDiags]
  | some s, sink => by
      have h1 := srStmt_eq s sink
      simp [srOptStmt, scannedOfOptStmt, h1]

theorem srOptExpr_eq : ∀ (e : Option Expr) (sink : List Diagnostic),
    srOptExpr sink e = sink ++ bodiesDiags (scannedOfOptExpr e)
  | none, sink => by simp [srOptExpr, scannedOfOptExpr, bodiesDiags]
  | some e, sink => by
      have h1 := srExpr_eq e sink
      simp [srOptExpr, scannedOfOptExpr, h1]

theorem srDecl_eq : ∀ (d : Decl) (sink : List Diagnostic),
    srDecl sink d = sink ++ bodiesDiags (scannedOfDecl d)
  | .fnDecl _ f, sink => by
      have h1 := srFunction_eq f sink
      simp [srDecl, scannedOfDecl, h1]
  | .varDecl v, sink => by
      have h1 := srVarDecl_eq v sink
      simp [srDecl, scannedOfDecl, h1]
  | .classDecl _ c, sink => by
      have h1 := srClass_eq c sink
      simp [srDecl, scannedOfDecl, h1]

theorem srVarDecl_eq : ∀ (v : VarDecl) (sink : List Diagnostic),
    srVarDecl sink v = sink ++ bodiesDiags (scannedOfVarDecl v)
  | .mk _ decls, sink => by
      have h1 := srVarDeclarators_eq decls sink
      simp [srVarDecl, scannedOfVarDecl, h1]

theorem srVarDeclarators_eq : ∀ (l : List VarDeclarator) (sink : List Diagnostic),
    srVarDeclarators sink l = sink ++ bodiesDiags (scannedOfVarDeclarators l)
  | [], sink => by simp [srVarDeclarators, scannedOfVarDeclarators, bodiesDiags]
  | d :: rest, sink => by
      have h1 := srVarDeclarator_eq d sink
      have h2 := srVarDeclarators_eq rest (srVarDeclarator sink d)
      rw [h1] at h2
      simp [srVarDeclarators, scannedOfVarDeclarators, bodiesDiags_append, h2, h1]

theorem srVarDeclarator_eq : ∀ (d : VarDeclarator) (sink : List Diagnostic),
    srVarDeclarator sink d = sink ++ bodiesDiags (scannedOfVarDeclarator d)
  | .mk _ name init, sink => by
      have h1 := srPat_eq name sink
      have h2 := srOptExpr_eq init (srPat sink name)
      rw [h1] at h2
      simp [srVarDeclarator, scannedOfVarDeclarator, bodiesDiags_append, h2, h1]

theorem srClass_eq : ∀ (c : Class) (sink : List Diagnostic),
    srClass sink c = sink ++ bodiesDiags (scannedOfClass c)
  | .mk members _, sink => by
      simp [srClass, scannedOfClass, srScanMembers_eq]

theorem srJsProps_eq : ∀ (l : List JsProp) (sink : List Diagnostic),
    srJsProps sink l = sink ++ bodiesDiags (scannedOfJsProps l)
  | [], sink => by simp [srJsProps, scannedOfJsProps, bodiesDiags]
  | p :: rest, sink => by
      have h1 := srJsProp_eq p sink
      have h2 := srJsProps_eq rest (srJsProp sink p)
      rw [h1] at h2
      simp [srJsProps, scannedOfJsProps, bodiesDiags_append, h2, h1]

theorem srJsProp_eq : ∀ (p : JsProp) (sink : List Diagnostic),
    srJsProp sink p = sink ++ bodiesDiags (scannedOfJsProp p)
  | .shorthand _, sink => by simp [srJsProp, scannedOfJsProp, bodiesDiags]
  | .keyValue key value, sink => by
      have h1 := srPropName_eq key sink
      have h2 := srExpr_eq value (srPropName sink key)
      rw [h1] at h2
      simp [srJsProp, scannedOfJsProp, bodiesDiags_append, h2, h1]
  | .getter key body, sink => by
      have h1 := srPropName_eq key sink
      have h2 := srOptBlock_eq body (srPropName sink key)
      rw [h1] at h2
      simp [srJsProp, scannedOfJsProp, bodiesDiags_append, h2, h1]
  | .setter s, sink => by
      have h1 := srSetterProp_eq s sink
      simp [srJsProp, scannedOfJsProp, h1]
  | .method key f, sink => by
      have h1 := srPropName_eq key sink
      have h2 := srFunction_eq f (srPropName sink key)
      rw [h1] at h2
      simp [srJsProp, scannedOfJsProp, bodiesDiags_append, h2, h1]

theorem srSetterProp_eq : ∀ (s : SetterProp) (sink : List Diagnostic),
    srSetterProp sink s = sink ++ bodiesDiags (scannedOfSetterProp s)
  | .mk _ _ _ (some b), sink => by
      simp [srSetterProp, scannedOfSetterProp, bodiesDiags, checkBlockStmt_eq]
  | .mk _ _ _ none, sink => by
      simp [srSetterProp, scannedOfSetterProp, bodiesDiags]

theorem srPropName_eq : ∀ (k : PropName) (sink : List Diagnostic),
    srPropName sink k = sink ++ bodiesDiags (scannedOfPropName k)
  | .ident _, sink => by simp [srPropName, scannedOfPropName, bodiesDiags]
  | .str _, sink => by simp [srPropName, scannedOfPropName, bodiesDiags]
  | .num _, sink => by simp [srPropName, scannedOfPropName, bodiesDiags]
  | .computed e, sink => by
      have h1 := srExpr_eq e sink
      simp [srPropName, scannedOfPropName, h1]

theorem srPat_eq : ∀ (p : Pat) (sink : List Diagnostic),
    srPat sink p = sink ++ bodiesDiags (scannedOfPat p)
  | .ident _ _, sink => by simp [srPat, scannedOfPat, bodiesDiags]
  | .array elems, sink => by
      have h1 := srPatElems_eq elems sink
      simp [srPat, scannedOfPat, h1]
  | .rest p, sink => by
      have h1 := srPat_eq p sink
      simp [srPat, scannedOfPat, h1]
  | .object props, sink => by
      have h1 := srObjectPatProps_eq props sink
      simp [srPat, scannedOfPat, h1]
  | .assign left right, sink => by
      have h1 := srPat_eq left sink
      have h2 := srExpr_eq right (srPat sink left)
      rw [h1] at h2
      simp [srPat, scannedOfPat, bodiesDiags_append, h2, h1]
  | .expr e, sink => by
      have h1 := srExpr_eq e sink
      simp [srPat, scannedOfPat, h1]

theorem srPatElems_eq : ∀ (l : List (Option Pat)) (sink : List Diagnostic),
    srPatElems sink l = sink ++ bodiesDiags (scannedOfPatElems l)
  | [], sink => by simp [srPatElems, scannedOfPatElems, bodiesDiags]
  | none :: rest, sink => by
      have h1 := srPatElems_eq rest sink
      simp [srPatElems, scannedOfPatElems, h1]
  | some p :: rest, sink => by
      have h1 := srPat_eq p sink
      have h2 := srPatElems_eq rest (srPat sink p)
      rw [h1] at h2
      simp [srPatElems, scannedOfPatElems, bodiesDiags_append, h2, h1]

theorem srObjectPatProps_eq : ∀ (l : List ObjectPatProp) (sink : List Diagnostic),
    srObjectPatProps sink l = sink ++ bodiesDiags (scannedOfObjectPatProps l)
  | [], sink => by simp [srObjectPatProps, scannedOfObjectPatProps, bodiesDiags]
  | p :: rest, sink => by
      have h1 := srObjectPatProp_eq p sink
      have h2 := srObjectPatProps_eq rest (srObjectPatProp sink p)
      rw [h1] at h2
      simp [srObjectPatProps, scannedOfObjectPatProps, bodiesDiags_append, h2, h1]

theorem srObjectPatProp_eq : ∀ (p : ObjectPatProp) (sink : List Diagnostic),
    srObjectPatProp sink p = sink ++ bodiesDiags (scannedOfObjectPatProp p)
  | .keyValue key p, sink => by
      have h1 := srPropName_eq key sink
      have h2 := srPat_eq p (srPropName sink key)
      rw [h1] at h2
      simp [srObjectPatProp, scannedOfObjectPatProp, bodiesDiags_append, h2, h1]
  | .assign _ value, sink => by
      have h1 := srOptExpr_eq value sink
      simp [srObjectPatProp, scannedOfObjectPatProp, h1]
  | .rest p, sink => by
      have h1 := srPat_eq p sink
      simp [srObjectPatProp, scannedOfObjectPatProp, h1]

end

theorem srModuleItem_eq : ∀ (m : ModuleItem) (sink : List Diagnostic),
    srModuleItem sink m = sink ++ bodiesDiags (scannedOfModuleItem m)
  | .stmt s, sink => by simp [srModuleItem, scannedOfModuleItem, srStmt_eq]
  | .exportDecl d, sink => by simp [srModuleItem, scannedOfModuleItem, srDecl_eq]

theorem srModuleItems_eq : ∀ (l : List ModuleItem) (sink : List Diagnostic),
    srModuleItems sink l = sink ++ bodiesDiags (scannedOfModuleItems l)
  | [], sink => by simp [srModuleItems, scannedOfModuleItems, bodiesDiags]
  | m :: rest, sink => by
      have h1 := srModuleItem_eq m sink
      have h2 := srModuleItems_eq rest (srModuleItem sink m)
      rw [h1] at h2
      simp [srModuleItems, scannedOfModuleItems, bodiesDiags_append, h2, h1]

/-- The output of one Setter-Return Analysis pass over any sink: the prior
sink content followed by, per scanned setter body in traversal order, one
diagnostic per top-level value-carrying return statement. -/
theorem noSetterReturnLintProgram_eq (sink : List Diagnostic) (p : Program) :
    noSetterReturnLintProgram sink p = sink ++ bodiesDiags (scannedOfProgram p) := by
  cases p
  · simp [noSetterReturnLintProgram, scannedOfProgram, srModuleItems_eq]
  · simp [noSetterReturnLintProgram, scannedOfProgram, srStmts_eq]

theorem noSetterReturnLint_eq (p : Program) :
    noSetterReturnLint p = bodiesDiags (scannedOfProgram p) := by
  rw [noSetterReturnLint, noSetterReturnLintProgram_eq]
  simp

/-! ## Pattern expression-erasure

erasePatExprs replaces every expression embedded in a binding pattern
(default values, the expression member of a pattern) by an inert literal
while keeping the pattern structure.  find_ids cannot tell the difference
because it skips expressions. -/

mutual

def erasePatExprs : Pat → Pat
  | .ident i ty => .ident i ty
  | .array elems => .array (erasePatExprsElems elems)
  | .rest p => .rest (erasePatExprs p)
  | .object props => .object (erasePatExprsProps props)
  | .assign left _ => .assign (erasePatExprs left) (.lit 0)
  | .expr _ => .expr (.lit 0)

def erasePatExprsElems : List (Option Pat) → List (Option Pat)
  | [] => []
  | none :: rest => none :: erasePatExprsElems rest
  | some p :: rest => some (erasePatExprs p) :: erasePatExprsElems rest

def erasePatExprsProps : List ObjectPatProp → List ObjectPatProp
  | [] => []
  | .keyValue k p :: rest => .keyValue k (erasePatExprs p) :: erasePatExprsProps rest
  | .assign i _ :: rest => .assign i none :: erasePatExprsProps rest
  | .rest p :: rest => .rest (erasePatExprs p) :: erasePatExprsProps rest

end

mutual

theorem findIdsPat_erase : ∀ (p : Pat), findIdsPat (erasePatExprs p) = findIdsPat p
  | .ident i ty => by simp [erasePatExprs, findIdsPat]
  | .array elems => by
      have h1 := findIdsElems_erase elems
      simp [erasePatExprs, findIdsPat, h1]
  | .rest p => by
      have h1 := findIdsPat_erase p
      simp [erasePatExprs, findIdsPat, h1]
  | .object props => by
      have h1 := findIdsProps_erase props
      simp [erasePatExprs, findIdsPat, h1]
  | .assign left right => by
      have h1 := findIdsPat_erase left
      simp [erasePatExprs, findIdsPat, h1]
  | .expr e => by simp [erasePatExprs, findIdsPat]

theorem findIdsElems_erase : ∀ (l : List (Option Pat)),
    findIdsElems (erasePatExprsElems l) = findIdsElems l
  | [] => by simp [erasePatExprsElems]
  | none :: rest => by
      have h1 := findIdsElems_erase rest
      simp [erasePatExprsElems, findIdsElems, h1]
  | some p :: rest => by
      have h1 := findIdsPat_erase p
      have h2 := findIdsElems_erase rest
      simp [erasePatExprsElems, findIdsElems, h1, h2]

theorem findIdsProps_erase : ∀ (l : List ObjectPatProp),
    findIdsProps (erasePatExprsProps l) = findIdsProps l
  | [] => by simp [erasePatExprsProps]
  | .keyValue k p :: rest => by
      have h1 := findIdsPat_erase p
      have h2 := findIdsProps_erase rest
      simp [erasePatExprsProps, findIdsProps, h1, h2]
  | .assign i v :: rest => by
      have h1 := findIdsProps_erase rest
      simp [erasePatExprsProps, findIdsProps, h1]
  | .rest p :: rest => by
      have h1 := findIdsPat_erase p
      have h2 := findIdsProps_erase rest
      simp [erasePatExprsProps, findIdsProps, h1, h2]

end

/-! ## Generic list helpers -/

theorem filterOfMap {α β : Type} (f : α → β) (q : β → Bool) :
    ∀ (l : List α), (l.map f).filter q = (l.filter (fun a => q (f a))).map f
  | [] => by simp
  | a :: rest => by
      by_cases h : q (f a)
      · simp [List.filter_cons, h, filterOfMap f q rest]
      · simp [List.filter_cons, h, filterOfMap f q rest]

/-- With pairwise-distinct spans, a member of ds has its span among the spans
of the x-occurrences iff it is itself an x-occurrence. -/
theorem span_mem_filter_iff (ds : List Ident) (x : Id)
    (hspan : (ds.map Ident.span).Nodup) (i : Ident) (hi : i ∈ ds) :
    i.span ∈ (ds.filter (fun j => j.to_id = x)).map Ident.span ↔ i.to_id = x := by
  constructor
  · intro hmem
    rcases List.mem_map.mp hmem with ⟨j, hj, hspan_eq⟩
    have hj_ds : j ∈ ds := List.mem_of_mem_filter hj
    have hij : j = i := List.inj_on_of_nodup_map hspan hj_ds hi hspan_eq
    have := List.of_mem_filter hj
    simpa [hij] using this
  · intro hx
    exact List.mem_map_of_mem Ident.span (List.mem_filter_of_mem hi (by simpa using hx))

/-! ## Claims about Duplicate-Binding Analysis -/

/-- Claim C3: when every declared Symbol Identity in the tree is globally
unique, one run of Duplicate-Binding Analysis emits zero diagnostics. -/
theorem claim_C3 (p : Program)
    (h : ((declsOfProgram p).map Ident.to_id).Nodup) :
    noRedeclareLint p = [] := by
  rw [noRedeclareLint_eq]
  rw [dupsFrom_eq_nil (declsOfProgram p) [] h (by simp)]
  simp

/-- Claim C5: a named function declaration without a body never participates
as a declaration: the visitor hook returns with the Binding Set and the
Diagnostic Sink untouched, and it contributes no declaring occurrence. -/
theorem claim_C5 :
    (∀ (st : RState) (i : Ident) (params : List Param) (rt : Option TsType),
        rvFnDecl st i (.mk params none rt) = st)
  ∧ (∀ (st : RState) (i : Ident) (params : List Param) (rt : Option TsType),
        rvDecl st (.fnDecl i (.mk params none rt)) = st)
  ∧ (∀ (i : Ident) (params : List Param) (rt : Option TsType),
        declsOfFnDecl i (.mk params none rt) = []) := by
  refine ⟨?_, ?_, ?_⟩
  · intro st i params rt
    simp [rvFnDecl]
  · intro st i params rt
    simp [rvDecl, rvFnDecl]
  · intro i params rt
    simp [declsOfFnDecl]

/-- Claim C6: a declare step on an already-present identity emits exactly one
diagnostic and leaves the Binding Set unchanged; on a fresh identity it
inserts and emits nothing; and over any declare sequence and over a whole
pass the Binding Set only ever grows. -/
theorem claim_C6 :
    (∀ (st : RState) (i : Ident), i.to_id ∈ st.bindings →
        declare st i = { st with diags := st.diags ++ [redeclareDiag i] })
  ∧ (∀ (st : RState) (i : Ident), i.to_id ∉ st.bindings →
        declare st i = { st with bindings := st.bindings ++ [i.to_id] })
  ∧ (∀ (st : RState) (l : List Ident) (x : Id), x ∈ st.bindings →
        x ∈ (declareAll st l).bindings)
  ∧ (∀ (p : Program) (st : RState) (x : Id), x ∈ st.bindings →
        x ∈ (rvProgram st p).bindings) := by
  refine ⟨fun st i h => declare_of_mem h, fun st i h => declare_of_not_mem h, ?_, ?_⟩
  · intro st l x hx
    rw [declareAll_bindings]
    exact List.mem_append_left _ hx
  · intro p st x hx
    rw [rvProgram_eq, declareAll_bindings]
    exact List.mem_append_left _ hx

/-- Claim C7: a class property's own (non-computed) key is never traversed —
the visitor's result does not depend on it — so the property name is never a
binding site; an identifier expression declares nothing even as a computed
key; and the value subtree is always traversed. -/
theorem claim_C7 :
    (∀ (st : RState) (k₁ k₂ : Expr) (v : Option Expr) (ty : Option TsType),
        rvClassProp st (.mk k₁ v false ty) = rvClassProp st (.mk k₂ v false ty))
  ∧ (∀ (st : RState) (i : Ident), rvExpr st (.ident i) = st)
  ∧ (∀ (st : RState) (k : Expr) (v : Option Expr) (ty : Option TsType),
        rvClassProp st (.mk k v true ty) = rvOptExpr (rvExpr st k) v)
  ∧ (∀ (st : RState) (k : Expr) (v : Expr) (ty : Option TsType),
        rvClassProp st (.mk k (some v) false ty) = rvExpr st v) := by
  refine ⟨?_, ?_, ?_, ?_⟩
  · intro st k₁ k₂ v ty
    simp [rvClassProp]
  · intro st i
    simp [rvExpr]
  · intro st k v ty
    simp [rvClassProp]
  · intro st k v ty
    simp [rvClassProp, rvOptExpr]

/-- Claim C9: both rule entry points only append to the Diagnostic Sink they
are handed, and what they append depends solely on the tree — so repeated
runs over the same tree with fresh sinks produce identical diagnostic
sequences, and no state persists between invocations. -/
theorem claim_C9 (p : Program) (sink : List Diagnostic) :
    noRedeclareLintProgram sink p = sink ++ noRedeclareLintProgram [] p
  ∧ noSetterReturnLintProgram sink p = sink ++ noSetterReturnLintProgram [] p := by
  constructor
  · rw [noRedeclareLintProgram_eq, noRedeclareLintProgram_eq]
    simp
  · rw [noSetterReturnLintProgram_eq, noSetterReturnLintProgram_eq]
    simp

/-- Claim C10: the Duplicate-Binding visitor never recurses into a variable
declarator's initializer (its result ignores the initializer entirely), and
never into the expression parts of a binding pattern (its result is unchanged
when every embedded expression is erased). -/
theorem claim_C10 :
    (∀ (st : RState) (sp : Span) (name : Pat) (init₁ init₂ : Option Expr),
        rvVarDeclarator st (.mk sp name init₁) = rvVarDeclarator st (.mk sp name init₂))
  ∧ (∀ (st : RState) (pat : Pat),
        rvParam st (.mk (erasePatExprs pat)) = rvParam st (.mk pat))
  ∧ (∀ (st : RState) (sp : Span) (name : Pat) (init : Option Expr),
        rvVarDeclarator st (.mk sp name init)
          = rvVarDeclarator st (.mk sp (erasePatExprs name) none)) := by
  refine ⟨?_, ?_, ?_⟩
  · intro st sp name init₁ init₂
    simp [rvVarDeclarator]
  · intro st pat
    simp [rvParam, findIdsPat_erase]
  · intro st sp name init
    simp [rvVarDeclarator, findIdsPat_erase]

/-- Claim C1: when Symbol Identity x is declared k ≥ 2 times at declaring
positions (with the parser invariant that declaring occurrences carry
pairwise-distinct spans), one pass emits exactly k−1 diagnostics whose spans
are those of the 2nd through kth declaring occurrences of x, in pre-order. -/
theorem claim_C1 (p : Program) (x : Id)
    (hspan : ((declsOfProgram p).map Ident.span).Nodup)
    (_hk : 2 ≤ (declOccs p x).length) :
    ((noRedeclareLint p).filter
        (fun d => d.span ∈ (declOccs p x).map Ident.span)).map Diagnostic.span
      = ((declOccs p x).tail).map Ident.span
  ∧ ((noRedeclareLint p).filter
        (fun d => d.span ∈ (declOccs p x).map Ident.span)).length
      = (declOccs p x).length - 1 := by
  have key :
      (noRedeclareLint p).filter (fun d => d.span ∈ (declOccs p x).map Ident.span)
        = ((declOccs p x).tail).map redeclareDiag := by
    rw [noRedeclareLint_eq]
    rw [filterOfMap]
    have hcong : (dupsFrom [] (declsOfProgram p)).filter
          (fun i => decide ((redeclareDiag i).span ∈ (declOccs p x).map Ident.span))
        = (dupsFrom [] (declsOfProgram p)).filter (fun i => i.to_id = x) := by
      apply List.filter_congr
      intro i hi
      have hi_ds : i ∈ declsOfProgram p := dupsFrom_subset [] (declsOfProgram p) hi
      have hiff := span_mem_filter_iff (declsOfProgram p) x hspan i hi_ds
      simp only [redeclareDiag, declOccs]
      rw [decide_eq_decide]
      exact hiff
    rw [hcong]
    rw [declOccs, dupsFrom_filter x (declsOfProgram p) []]
    simp
  constructor
  · rw [key, List.map_map]
    congr 1
  · rw [key]
    simp [List.length_tail]

/-! ## Claims about Setter-Return Analysis -/

/-- The top-level value-carrying return spans of a body list, concatenated. -/
def spansOfBodies : List BlockStmt → List Span
  | [] => []
  | b :: rest => topRetArgSpans b ++ spansOfBodies rest

/-- All top-level value-carrying return spans of the setter bodies one
Setter-Return Analysis pass scans, in emission order. -/
def scannedRetSpans (p : Program) : List Span :=
  spansOfBodies (scannedOfProgram p)

theorem bodiesDiags_eq_map : ∀ (l : List BlockStmt),
    bodiesDiags l = (spansOfBodies l).map setterReturnDiag
  | [] => rfl
  | b :: rest => by
      simp [bodiesDiags, spansOfBodies, bodyDiags, bodiesDiags_eq_map rest]

theorem noSetterReturnLint_spans (p : Program) :
    noSetterReturnLint p = (scannedRetSpans p).map setterReturnDiag := by
  rw [noSetterReturnLint_eq, bodiesDiags_eq_map, scannedRetSpans]

theorem mem_spansOfBodies : ∀ (l : List BlockStmt) (sp : Span),
    sp ∈ spansOfBodies l → ∃ b, b ∈ l ∧ sp ∈ topRetArgSpans b
  | [], sp => by
      intro h
      simp [spansOfBodies] at h
  | b :: rest, sp => by
      intro h
      rcases List.mem_append.mp (by simpa [spansOfBodies] using h) with hl | hr
      · exact ⟨b, by simp, hl⟩
      · rcases mem_spansOfBodies rest sp hr with ⟨b2, hb2, hsp2⟩
        exact ⟨b2, List.mem_cons_of_mem b hb2, hsp2⟩

theorem setterReturnDiag_inj : ∀ (a b : Span), setterReturnDiag a = setterReturnDiag b → a = b := by
  intro a b h
  simpa [setterReturnDiag] using h

/-- Claim C2 (amended to the setter bodies the analysis scans: those not
nested inside another class body or object-setter subtree): the pass emits
exactly the per-body top-level value-return diagnostics; under the parser
invariant of distinct return spans, each such return is flagged exactly once
and a bare top-level return is never flagged. -/
theorem claim_C2 (p : Program)
    (hnodup : (scannedRetSpans p).Nodup)
    (hdisj : ∀ b ∈ scannedOfProgram p, ∀ sp ∈ topBareRetSpans b,
        sp ∉ scannedRetSpans p) :
    noSetterReturnLint p = (scannedRetSpans p).map setterReturnDiag
  ∧ (∀ sp ∈ scannedRetSpans p,
        (noSetterReturnLint p).count (setterReturnDiag sp) = 1)
  ∧ (∀ b ∈ scannedOfProgram p, ∀ sp ∈ topBareRetSpans b,
        ∀ d ∈ noSetterReturnLint p, d.span ≠ sp) := by
  refine ⟨noSetterReturnLint_spans p, ?_, ?_⟩
  · intro sp hsp
    rw [noSetterReturnLint_spans]
    rw [List.count_map_of_injective _ setterReturnDiag
      (fun a b h => setterReturnDiag_inj a b h) sp]
    exact List.count_eq_one_of_mem hnodup hsp
  · intro b hb sp hsp d hd hspan
    rw [noSetterReturnLint_spans] at hd
    rcases List.mem_map.mp hd with ⟨sp2, hsp2, hdef⟩
    have hd2 : d.span = sp2 := by rw [← hdef]; rfl
    have hss : sp = sp2 := hspan.symm.trans hd2
    exact hdisj b hb sp hsp (by rw [hss]; exact hsp2)

/-- Claim C4: a span that is not a top-level value-carrying return span of
any scanned setter body — in particular the span of a return nested inside an
if / loop / block / nested function within the body — is never flagged. -/
theorem claim_C4 (p : Program) (sp : Span)
    (h : ∀ b ∈ scannedOfProgram p, sp ∉ topRetArgSpans b) :
    ∀ d ∈ noSetterReturnLint p, d.span ≠ sp := by
  intro d hd hspan
  rw [noSetterReturnLint_spans] at hd
  rcases List.mem_map.mp hd with ⟨sp2, hsp2, hdef⟩
  have hdspan : d.span = sp2 := by rw [← hdef]; rfl
  have hss : sp = sp2 := hspan.symm.trans hdspan
  rcases mem_spansOfBodies (scannedOfProgram p) sp2 hsp2 with ⟨b, hb, hspb⟩
  exact h b hb (by rw [hss]; exact hspb)

/-! ## Every setter body in the tree (for stating claim C2 as written)

allSetterBodiesOf* collects the body of every class setter (public or private
method of kind setter with a concrete body) and of every object-literal
setter with a concrete body, anywhere in the tree — including setters nested
inside class member bodies, which the Setter-Return traversal never reaches.
This follows the spec's words; the code's own scan is scannedOf*. -/

/-- The concrete body of a function, when present. -/
def setterBodyOf : Function → List BlockStmt
  | .mk _ (some b) _ => [b]
  | .mk _ none _ => []

mutual

def asbExpr : Expr → List BlockStmt
  | .ident _ => []
  | .lit _ => []
  | .fnExpr _ f => asbFunction f
  | .object props => asbJsProps props
  | .classExpr _ c => asbClass c

def asbFunction : Function → List BlockStmt
  | .mk params body _ => asbParams params ++ asbOptBlock body

def asbParams : List Param → List BlockStmt
  | [] => []
  | p :: rest => asbParam p ++ asbParams rest

def asbParam : Param → List BlockStmt
  | .mk pat => asbPat pat

def asbOptBlock : Option BlockStmt → List BlockStmt
  | none => []
  | some b => asbBlock b

def asbBlock : BlockStmt → List BlockStmt
  | .mk stmts => asbStmts stmts

def asbStmts : List Stmt → List BlockStmt
  | [] => []
  | s :: rest => asbStmt s ++ asbStmts rest

def asbStmt : Stmt → List BlockStmt
  | .block b => asbBlock b
  | .expr e => asbExpr e
  | .ret _ arg => asbOptExpr arg
  | .ifStmt test cons alt => asbExpr test ++ asbStmt cons ++ asbOptStmt alt
  | .decl d => asbDecl d
  | .empty => []

def asbOptStmt : Option Stmt → List BlockStmt
  | none => []
  | some s => asbStmt s

def asbOptExpr : Option Expr → List BlockStmt
  | none => []
  | some e => asbExpr e

def asbDecl : Decl → List BlockStmt
  | .fnDecl _ f => asbFunction f
  | .varDecl v => asbVarDecl v
  | .classDecl _ c => asbClass c

def asbVarDecl : VarDecl → List BlockStmt
  | .mk _ decls => asbVarDeclarators decls

def asbVarDeclarators : List VarDeclarator → List BlockStmt
  | [] => []
  | d :: rest => asbVarDeclarator d ++ asbVarDeclarators rest

def asbVarDeclarator : VarDeclarator → List BlockStmt
  | .mk _ name init => asbPat name ++ asbOptExpr init

def asbClass : Class → List BlockStmt
  | .mk members superClass => asbClassMembers members ++ asbOptExpr superClass

def asbClassMembers : List ClassMember → List BlockStmt
  | [] => []
  | m :: rest => asbClassMember m ++ asbClassMembers rest

def asbClassMember : ClassMember → List BlockStmt
  | .method (.mk key f kind) =>
      (if kind = MethodKind.setter then setterBodyOf f else [])
        ++ asbPropName key ++ asbFunction f
  | .privateMethod (.mk _ f kind) =>
      (if kind = MethodKind.setter then setterBodyOf f else []) ++ asbFunction f
  | .classProp (.mk key value _ _) => asbExpr key ++ asbOptExpr value
  | .emptyMember => []

def asbJsProps : List JsProp → List BlockStmt
  | [] => []
  | p :: rest => asbJsProp p ++ asbJsProps rest

def asbJsProp : JsProp → List BlockStmt
  | .shorthand _ => []
  | .keyValue key value => asbPropName key ++ asbExpr value
  | .getter key body => asbPropName key ++ asbOptBlock body
  | .setter s => asbSetterProp s
  | .method key f => asbPropName key ++ asbFunction f

def asbSetterProp : SetterProp → List BlockStmt
  | .mk _ key param body =>
      (match body with
        | some b => [b]
        | none => [])
        ++ asbPropName key ++ asbPat param ++ asbOptBlock body

def asbPropName : PropName → List BlockStmt
  | .ident _ => []
  | .str _ => []
  | .num _ => []
  | .computed e => asbExpr e

def asbPat : Pat → List BlockStmt
  | .ident _ _ => []
  | .array elems => asbPatElems elems
  | .rest p => asbPat p
  | .object props => asbObjectPatProps props
  | .assign left right => asbPat left ++ asbExpr right
  | .expr e => asbExpr e

def asbPatElems : List (Option Pat) → List BlockStmt
  | [] => []
  | none :: rest => asbPatElems rest
  | some p :: rest => asbPat p ++ asbPatElems rest

def asbObjectPatProps : List ObjectPatProp → List BlockStmt
  | [] => []
  | p :: rest => asbObjectPatProp p ++ asbObjectPatProps rest

def asbObjectPatProp : ObjectPatProp → List BlockStmt
  | .keyValue key p => asbPropName key ++ asbPat p
  | .assign _ value => asbOptExpr value
  | .rest p => asbPat p

end

def asbModuleItem : ModuleItem → List BlockStmt
  | .stmt s => asbStmt s
  | .exportDecl d => asbDecl d

def asbModuleItems : List ModuleItem → List BlockStmt
  | [] => []
  | m :: rest => asbModuleItem m ++ asbModuleItems rest

/-- Every setter body anywhere in the tree, per the spec's wording. -/
def allSetterBodiesProgram : Program → List BlockStmt
  | .module items => asbModuleItems items
  | .script stmts => asbStmts stmts

/-- Claim C2 exactly as stated: for EVERY class or object-literal setter body
in the tree, a bare top-level return is never flagged and each top-level
value-carrying return is flagged exactly once. -/
def ClaimC2Stated (p : Program) : Prop :=
  ∀ b ∈ allSetterBodiesProgram p,
    (∀ sp ∈ topBareRetSpans b, ∀ d ∈ noSetterReturnLint p, d.span ≠ sp)
  ∧ (∀ sp ∈ topRetArgSpans b, (noSetterReturnLint p).count (setterReturnDiag sp) = 1)

/-! A class setter nested inside another class setter's body: the outer
visit_class never recurses into member bodies, so the inner setter's
top-level `return 1;` is flagged zero times, not once. -/

def cexInnerBody : BlockStmt := .mk [.ret ⟨50, 60⟩ (some (.lit 1))]

def cexInnerClass : Class :=
  .mk [.method (.mk (.ident ⟨⟨40, 41⟩, "t", 0⟩)
    (.mk [] (some cexInnerBody) none) .setter)] none

def cexOuterBody : BlockStmt := .mk [.decl (.classDecl ⟨⟨30, 31⟩, "D", 0⟩ cexInnerClass)]

def cexOuterClass : Class :=
  .mk [.method (.mk (.ident ⟨⟨10, 11⟩, "s", 0⟩)
    (.mk [] (some cexOuterBody) none) .setter)] none

def claimC2CexProgram : Program :=
  .script [.decl (.classDecl ⟨⟨6, 7⟩, "C", 0⟩ cexOuterClass)]

/-- Claim C2 as stated is false on the code: in claimC2CexProgram the inner
class setter has a concrete body whose top-level `return 1;` receives zero
diagnostics (the pass emits nothing at all for this tree). -/
theorem claim_C2_counterexample : ¬ ClaimC2Stated claimC2CexProgram := by
  unfold ClaimC2Stated
  decide

/-! ## Witness inputs -/

def wIdent (lo : Nat) (s : String) (c : Nat) : Ident := ⟨⟨lo, lo + 1⟩, s, c⟩

/-- `var a = 3; var a = 10; var a = 15;` with one shared Symbol Identity. -/
def wProgThreeVars : Program :=
  .script
    [ .decl (.varDecl (.mk .varKind [.mk ⟨0, 10⟩ (.ident (wIdent 4 "a" 0) none) (some (.lit 3))]))
    , .decl (.varDecl (.mk .varKind [.mk ⟨11, 22⟩ (.ident (wIdent 15 "a" 0) none) (some (.lit 10))]))
    , .decl (.varDecl (.mk .varKind [.mk ⟨23, 34⟩ (.ident (wIdent 27 "a" 0) none) (some (.lit 15))])) ]

def wIdA : Id := ("a", 0)

theorem claim_C1_witness :
    (((declsOfProgram wProgThreeVars).map Ident.span).Nodup
      ∧ 2 ≤ (declOccs wProgThreeVars wIdA).length)
  ∧ (((noRedeclareLint wProgThreeVars).filter
        (fun d => d.span ∈ (declOccs wProgThreeVars wIdA).map Ident.span)).map Diagnostic.span
      = ((declOccs wProgThreeVars wIdA).tail).map Ident.span
    ∧ ((noRedeclareLint wProgThreeVars).filter
        (fun d => d.span ∈ (declOccs wProgThreeVars wIdA).map Ident.span)).length
      = (declOccs wProgThreeVars wIdA).length - 1) :=
  ⟨⟨by decide, by decide⟩, claim_C1 wProgThreeVars wIdA (by decide) (by decide)⟩

/-- `var a; var b;` with distinct Symbol Identities. -/
def wProgDistinct : Program :=
  .script
    [ .decl (.varDecl (.mk .varKind [.mk ⟨0, 6⟩ (.ident (wIdent 4 "a" 0) none) none]))
    , .decl (.varDecl (.mk .varKind [.mk ⟨7, 13⟩ (.ident (wIdent 11 "b" 0) none) none])) ]

theorem claim_C3_witness :
    ((declsOfProgram wProgDistinct).map Ident.to_id).Nodup
  ∧ noRedeclareLint wProgDistinct = [] :=
  ⟨by decide, claim_C3 wProgDistinct (by decide)⟩

/-- `const a = { set setter(a) { return "x"; } };` -/
def wSetterBody : BlockStmt := .mk [.ret ⟨28, 47⟩ (some (.lit 0))]

def wProgObjSetter : Program :=
  .script
    [ .decl (.varDecl (.mk .constKind
        [.mk ⟨6, 49⟩ (.ident (wIdent 6 "a" 0) none)
          (some (.object [.setter (.mk ⟨12, 49⟩ (.ident (wIdent 16 "setter" 0))
            (.ident (wIdent 23 "a" 1) none) (some wSetterBody))]))])) ]

theorem claim_C2_witness :
    ((scannedRetSpans wProgObjSetter).Nodup
      ∧ ∀ b ∈ scannedOfProgram wProgObjSetter, ∀ sp ∈ topBareRetSpans b,
          sp ∉ scannedRetSpans wProgObjSetter)
  ∧ (noSetterReturnLint wProgObjSetter
        = (scannedRetSpans wProgObjSetter).map setterReturnDiag
    ∧ (∀ sp ∈ scannedRetSpans wProgObjSetter,
          (noSetterReturnLint wProgObjSetter).count (setterReturnDiag sp) = 1)
    ∧ (∀ b ∈ scannedOfProgram wProgObjSetter, ∀ sp ∈ topBareRetSpans b,
          ∀ d ∈ noSetterReturnLint wProgObjSetter, d.span ≠ sp)) :=
  ⟨⟨by decide, by decide⟩, claim_C2 wProgObjSetter (by decide) (by decide)⟩

/-- `class C { set s(v) { if (true) { return 1; } } }` — the return is nested,
not a direct top-level statement of the setter body. -/
def wNestedRetSpan : Span := ⟨30, 39⟩

def wProgNested : Program :=
  .script
    [ .decl (.classDecl (wIdent 6 "C" 0)
        (.mk [.method (.mk (.ident (wIdent 14 "s" 0))
          (.mk [.mk (.ident (wIdent 16 "v" 1) none)]
            (some (.mk [.ifStmt (.lit 1)
              (.block (.mk [.ret wNestedRetSpan (some (.lit 1))])) none]))
            none) .setter)] none)) ]

theorem claim_C4_witness :
    (∀ b ∈ scannedOfProgram wProgNested, wNestedRetSpan ∉ topRetArgSpans b)
  ∧ (∀ d ∈ noSetterReturnLint wProgNested, d.span ≠ wNestedRetSpan)
  ∧ noSetterReturnLint wProgNested = [] :=
  ⟨by decide, claim_C4 wProgNested wNestedRetSpan (by decide), by decide⟩

def wState : RState := ⟨[("a", 0)], []⟩

def wIdentA : Ident := wIdent 15 "a" 0

def wIdentB : Ident := wIdent 20 "b" 0

theorem claim_C6_witness :
    (wIdentA.to_id ∈ wState.bindings
      ∧ declare wState wIdentA
          = { wState with diags := wState.diags ++ [redeclareDiag wIdentA] })
  ∧ (wIdentB.to_id ∉ wState.bindings
      ∧ declare wState wIdentB
          = { wState with bindings := wState.bindings ++ [wIdentB.to_id] })
  ∧ (("a", 0) ∈ wState.bindings ∧ ("a", 0) ∈ (declareAll wState [wIdentB]).bindings)
  ∧ (("a", 0) ∈ wState.bindings ∧ ("a", 0) ∈ (rvProgram wState wProgThreeVars).bindings) :=
  ⟨⟨by decide, claim_C6.1 wState wIdentA (by decide)⟩,
   ⟨by decide, claim_C6.2.1 wState wIdentB (by decide)⟩,
   ⟨by decide, claim_C6.2.2.1 wState [wIdentB] ("a", 0) (by decide)⟩,
   ⟨by decide, claim_C6.2.2.2 wProgThreeVars wState ("a", 0) (by decide)⟩⟩

/-! ## Type-annotation erasure

et* removes every type-annotation subtree from the tree (the only fields of
type Option TsType: a binding identifier's annotation, a function's return
type, a class property's annotation), leaving everything else intact. -/

mutual

def etExpr : Expr → Expr
  | .ident i => .ident i
  | .lit n => .lit n
  | .fnExpr name f => .fnExpr name (etFunction f)
  | .object props => .object (etJsProps props)
  | .classExpr name c => .classExpr name (etClass c)

def etFunction : Function → Function
  | .mk params body _ => .mk (etParams params) (etOptBlock body) none

def etParams : List Param → List Param
  | [] => []
  | p :: rest => etParam p :: etParams rest

def etParam : Param → Param
  | .mk pat => .mk (etPat pat)

def etOptBlock : Option BlockStmt → Option BlockStmt
  | none => none
  | some b => some (etBlock b)

def etBlock : BlockStmt → BlockStmt
  | .mk stmts => .mk (etStmts stmts)

def etStmts : List Stmt → List Stmt
  | [] => []
  | s :: rest => etStmt s :: etStmts rest

def etStmt : Stmt → Stmt
  | .block b => .block (etBlock b)
  | .expr e => .expr (etExpr e)
  | .ret sp arg => .ret sp (etOptExpr arg)
  | .ifStmt test cons alt => .ifStmt (etExpr test) (etStmt cons) (etOptStmt alt)
  | .decl d => .decl (etDecl d)
  | .empty => .empty

def etOptStmt : Option Stmt → Option Stmt
  | none => none
  | some s => some (etStmt s)

def etOptExpr : Option Expr → Option Expr
  | none => none
  | some e => some (etExpr e)

def etDecl : Decl → Decl
  | .fnDecl i f => .fnDecl i (etFunction f)
  | .varDecl v => .varDecl (etVarDecl v)
  | .classDecl i c => .classDecl i (etClass c)

def etVarDecl : VarDecl → VarDecl
  | .mk kind decls => .mk kind (etVarDeclarators decls)

def etVarDeclarators : List VarDeclarator → List VarDeclarator
  | [] => []
  | d :: rest => etVarDeclarator d :: etVarDeclarators rest

def etVarDeclarator : VarDeclarator → VarDeclarator
  | .mk sp name init => .mk sp (etPat name) (etOptExpr init)

def etClass : Class → Class
  | .mk members superClass => .mk (etClassMembers members) (etOptExpr superClass)

def etClassMembers : List ClassMember → List ClassMember
  | [] => []
  | m :: rest => etClassMember m :: etClassMembers rest

def etClassMember : ClassMember → ClassMember
  | .method (.mk key f kind) => .method (.mk (etPropName key) (etFunction f) kind)
  | .privateMethod (.mk name f kind) => .privateMethod (.mk name (etFunction f) kind)
  | .classProp (.mk key value computed _) =>
      .classProp (.mk (etExpr key) (etOptExpr value) computed none)
  | .emptyMember => .emptyMember

def etPropName : PropName → PropName
  | .ident i => .ident i
  | .str s => .str s
  | .num n => .num n
  | .computed e => .computed (etExpr e)

def etJsProps : List JsProp → List JsProp
  | [] => []
  | p :: rest => etJsProp p :: etJsProps rest

def etJsProp : JsProp → JsProp
  | .shorthand i => .shorthand i
  | .keyValue key value => .keyValue (etPropName key) (etExpr value)
  | .getter key body => .getter (etPropName key) (etOptBlock body)
  | .setter s => .setter (etSetterProp s)
  | .method key f => .method (etPropName key) (etFunction f)

def etSetterProp : SetterProp → SetterProp
  | .mk sp key param body => .mk sp (etPropName key) (etPat param) (etOptBlock body)

def etPat : Pat → Pat
  | .ident i _ => .ident i none
  | .array elems => .array (etPatElems elems)
  | .rest p => .rest (etPat p)
  | .object props => .object (etObjectPatProps props)
  | .assign left right => .assign (etPat left) (etExpr right)
  | .expr e => .expr (etExpr e)

def etPatElems : List (Option Pat) → List (Option Pat)
  | [] => []
  | none :: rest => none :: etPatElems rest
  | some p :: rest => some (etPat p) :: etPatElems rest

def etObjectPatProps : List ObjectPatProp → List ObjectPatProp
  | [] => []
  | p :: rest => etObjectPatProp p :: etObjectPatProps rest

def etObjectPatProp : ObjectPatProp → ObjectPatProp
  | .keyValue key p => .keyValue (etPropName key) (etPat p)
  | .assign i value => .assign i (etOptExpr value)
  | .rest p => .rest (etPat p)

end

def etModuleItem : ModuleItem → ModuleItem
  | .stmt s => .stmt (etStmt s)
  | .exportDecl d => .exportDecl (etDecl d)

def etModuleItems : List ModuleItem → List ModuleItem
  | [] => []
  | m :: rest => etModuleItem m :: etModuleItems rest

/-- The program with every type-annotation subtree removed. -/
def eraseTypesProgram : Program → Program
  | .module items => .module (etModuleItems items)
  | .script stmts => .script (etStmts stmts)

/-! ## All identifiers occurring outside type-annotation subtrees -/

mutual

def ntIdentsExpr : Expr → List Ident
  | .ident i => [i]
  | .lit _ => []
  | .fnExpr none f => ntIdentsFunction f
  | .fnExpr (some i) f => i :: ntIdentsFunction f
  | .object props => ntIdentsJsProps props
  | .classExpr none c => ntIdentsClass c
  | .classExpr (some i) c => i :: ntIdentsClass c

def ntIdentsFunction : Function → List Ident
  | .mk params body _ => ntIdentsParams params ++ ntIdentsOptBlock body

def ntIdentsParams : List Param → List Ident
  | [] => []
  | p :: rest => ntIdentsParam p ++ ntIdentsParams rest

def ntIdentsParam : Param → List Ident
  | .mk pat => ntIdentsPat pat

def ntIdentsOptBlock : Option BlockStmt → List Ident
  | none => []
  | some b => ntIdentsBlock b

def ntIdentsBlock : BlockStmt → List Ident
  | .mk stmts => ntIdentsStmts stmts

def ntIdentsStmts : List Stmt → List Ident
  | [] => []
  | s :: rest => ntIdentsStmt s ++ ntIdentsStmts rest

def ntIdentsStmt : Stmt → List Ident
  | .block b => ntIdentsBlock b
  | .expr e => ntIdentsExpr e
  | .ret _ arg => ntIdentsOptExpr arg
  | .ifStmt test cons alt =>
      ntIdentsExpr test ++ ntIdentsStmt cons ++ ntIdentsOptStmt alt
  | .decl d => ntIdentsDecl d
  | .empty => []

def ntIdentsOptStmt : Option Stmt → List Ident
  | none => []
  | some s => ntIdentsStmt s

def ntIdentsOptExpr : Option Expr → List Ident
  | none => []
  | some e => ntIdentsExpr e

def ntIdentsDecl : Decl → List Ident
  | .fnDecl i f => i :: ntIdentsFunction f
  | .varDecl v => ntIdentsVarDecl v
  | .classDecl i c => i :: ntIdentsClass c

def ntIdentsVarDecl : VarDecl → List Ident
  | .mk _ decls => ntIdentsVarDeclarators decls

def ntIdentsVarDeclarators : List VarDeclarator → List Ident
  | [] => []
  | d :: rest => ntIdentsVarDeclarator d ++ ntIdentsVarDeclarators rest

def ntIdentsVarDeclarator : VarDeclarator → List Ident
  | .mk _ name init => ntIdentsPat name ++ ntIdentsOptExpr init

def ntIdentsClass : Class → List Ident
  | .mk members superClass => ntIdentsClassMembers members ++ ntIdentsOptExpr superClass

def ntIdentsClassMembers : List ClassMember → List Ident
  | [] => []
  | m :: rest => ntIdentsClassMember m ++ ntIdentsClassMembers rest

def ntIdentsClassMember : ClassMember → List Ident
  | .method (.mk key f _) => ntIdentsPropName key ++ ntIdentsFunction f
  | .privateMethod (.mk _ f _) => ntIdentsFunction f
  | .classProp (.mk key value _ _) => ntIdentsExpr key ++ ntIdentsOptExpr value
  | .emptyMember => []

def ntIdentsPropName : PropName → List Ident
  | .ident i => [i]
  | .str _ => []
  | .num _ => []
  | .computed e => ntIdentsExpr e

def ntIdentsJsProps : List JsProp → List Ident
  | [] => []
  | p :: rest => ntIdentsJsProp p ++ ntIdentsJsProps rest

def ntIdentsJsProp : JsProp → List Ident
  | .shorthand i => [i]
  | .keyValue key value => ntIdentsPropName key ++ ntIdentsExpr value
  | .getter key body => ntIdentsPropName key ++ ntIdentsOptBlock body
  | .setter s => ntIdentsSetterProp s
  | .method key f => ntIdentsPropName key ++ ntIdentsFunction f

def ntIdentsSetterProp : SetterProp → List Ident
  | .mk _ key param body =>
      ntIdentsPropName key ++ ntIdentsPat param ++ ntIdentsOptBlock body

def ntIdentsPat : Pat → List Ident
  | .ident i _ => [i]
  | .array elems => ntIdentsPatElems elems
  | .rest p => ntIdentsPat p
  | .object props => ntIdentsObjectPatProps props
  | .assign left right => ntIdentsPat left ++ ntIdentsExpr right
  | .expr e => ntIdentsExpr e

def ntIdentsPatElems : List (Option Pat) → List Ident
  | [] => []
  | none :: rest => ntIdentsPatElems rest
  | some p :: rest => ntIdentsPat p ++ ntIdentsPatElems rest

def ntIdentsObjectPatProps : List ObjectPatProp → List Ident
  | [] => []
  | p :: rest => ntIdentsObjectPatProp p ++ ntIdentsObjectPatProps rest

def ntIdentsObjectPatProp : ObjectPatProp → List Ident
  | .keyValue key p => ntIdentsPropName key ++ ntIdentsPat p
  | .assign i value => i :: ntIdentsOptExpr value
  | .rest p => ntIdentsPat p

end

def ntIdentsModuleItem : ModuleItem → List Ident
  | .stmt s => ntIdentsStmt s
  | .exportDecl d => ntIdentsDecl d

def ntIdentsModuleItems : List ModuleItem → List Ident
  | [] => []
  | m :: rest => ntIdentsModuleItem m ++ ntIdentsModuleItems rest

/-- Every identifier occurring outside a type-annotation subtree.  An
identifier absent from this list occurs (if at all) only inside type
annotations. -/
def ntIdentsProgram : Program → List Ident
  | .module items => ntIdentsModuleItems items
  | .script stmts => ntIdentsStmts stmts

/-! ## Type erasure changes neither find_ids nor the declaration sequence -/

mutual

theorem findIdsPat_et : ∀ (p : Pat), findIdsPat (etPat p) = findIdsPat p
  | .ident i ty => by simp [etPat, findIdsPat]
  | .array elems => by simp [etPat, findIdsPat, findIdsElems_et elems]
  | .rest p => by simp [etPat, findIdsPat, findIdsPat_et p]
  | .object props => by simp [etPat, findIdsPat, findIdsProps_et props]
  | .assign left right => by simp [etPat, findIdsPat, findIdsPat_et left]
  | .expr e => by simp [etPat, findIdsPat]

theorem findIdsElems_et : ∀ (l : List (Option Pat)),
    findIdsElems (etPatElems l) = findIdsElems l
  | [] => by simp [etPatElems]
  | none :: rest => by simp [etPatElems, findIdsElems, findIdsElems_et rest]
  | some p :: rest => by
      simp [etPatElems, findIdsElems, findIdsPat_et p, findIdsElems_et rest]

theorem findIdsProps_et : ∀ (l : List ObjectPatProp),
    findIdsProps (etObjectPatProps l) = findIdsProps l
  | [] => by simp [etObjectPatProps]
  | .keyValue k p :: rest => by
      simp [etObjectPatProps, etObjectPatProp, findIdsProps, findIdsPat_et p,
        findIdsProps_et rest]
  | .assign i v :: rest => by
      simp [etObjectPatProps, etObjectPatProp, findIdsProps, findIdsProps_et rest]
  | .rest p :: rest => by
      simp [etObjectPatProps, etObjectPatProp, findIdsProps, findIdsPat_et p,
        findIdsProps_et rest]

end

mutual

theorem declsOfExpr_et : ∀ (e : Expr), declsOfExpr (etExpr e) = declsOfExpr e
  | .ident i => by simp [etExpr, declsOfExpr]
  | .lit n => by simp [etExpr, declsOfExpr]
  | .fnExpr name f => by simp [etExpr, declsOfExpr, declsOfFunction_et f]
  | .object props => by simp [etExpr, declsOfExpr, declsOfJsProps_et props]
  | .classExpr name c => by simp [etExpr, declsOfExpr, declsOfClass_et c]

theorem declsOfFunction_et : ∀ (f : Function),
    declsOfFunction (etFunction f) = declsOfFunction f
  | .mk params body rt => by
      simp [etFunction, declsOfFunction, declsOfParams_et params, declsOfOptBlock_et body]

theorem declsOfParams_et : ∀ (l : List Param), declsOfParams (etParams l) = declsOfParams l
  | [] => by simp [etParams]
  | p :: rest => by simp [etParams, declsOfParams, declsOfParam_et p, declsOfParams_et rest]

theorem declsOfParam_et : ∀ (p : Param), declsOfParam (etParam p) = declsOfParam p
  | .mk pat => by simp [etParam, declsOfParam, findIdsPat_et pat]

theorem declsOfOptBlock_et : ∀ (b : Option BlockStmt),
    declsOfOptBlock (etOptBlock b) = declsOfOptBlock b
  | none => by simp [etOptBlock, declsOfOptBlock]
  | some b => by simp [etOptBlock, declsOfOptBlock, declsOfBlock_et b]

theorem declsOfBlock_et : ∀ (b : BlockStmt), declsOfBlock (etBlock b) = declsOfBlock b
  | .mk stmts => by simp [etBlock, declsOfBlock, declsOfStmts_et stmts]

theorem declsOfStmts_et : ∀ (l : List Stmt), declsOfStmts (etStmts l) = declsOfStmts l
  | [] => by simp [etStmts]
  | s :: rest => by simp [etStmts, declsOfStmts, declsOfStmt_et s, declsOfStmts_et rest]

theorem declsOfStmt_et : ∀ (s : Stmt), declsOfStmt (etStmt s) = declsOfStmt s
  | .block b => by simp [etStmt, declsOfStmt, declsOfBlock_et b]
  | .expr e => by simp [etStmt, declsOfStmt, declsOfExpr_et e]
  | .ret sp arg => by simp [etStmt, declsOfStmt, declsOfOptExpr_et arg]
  | .ifStmt test cons alt => by
      simp [etStmt, declsOfStmt, declsOfExpr_et test, declsOfStmt_et cons,
        declsOfOptStmt_et alt]
  | .decl d => by simp [etStmt, declsOfStmt, declsOfDecl_et d]
  | .empty => by simp [etStmt, declsOfStmt]

theorem declsOfOptStmt_et : ∀ (s : Option Stmt),
    declsOfOptStmt (etOptStmt s) = declsOfOptStmt s
  | none => by simp [etOptStmt, declsOfOptStmt]
  | some s => by simp [etOptStmt, declsOfOptStmt, declsOfStmt_et s]

theorem declsOfOptExpr_et : ∀ (e : Option Expr),
    declsOfOptExpr (etOptExpr e) = declsOfOptExpr e
  | none => by simp [etOptExpr, declsOfOptExpr]
  | some e => by simp [etOptExpr, declsOfOptExpr, declsOfExpr_et e]

theorem declsOfDecl_et : ∀ (d : Decl), declsOfDecl (etDecl d) = declsOfDecl d
  | .fnDecl i f => by simp [etDecl, declsOfDecl, declsOfFnDecl_et f i]
  | .varDecl v => by simp [etDecl, declsOfDecl, declsOfVarDecl_et v]
  | .classDecl i c => by simp [etDecl, declsOfDecl, declsOfClass_et c]

theorem declsOfFnDecl_et : ∀ (f : Function) (i : Ident),
    declsOfFnDecl i (etFunction f) = declsOfFnDecl i f
  | .mk params none rt, i => by simp [etFunction, etOptBlock, declsOfFnDecl]
  | .mk params (some b) rt, i => by
      simp [etFunction, etOptBlock, declsOfFnDecl, declsOfParams_et params,
        declsOfBlock_et b]

theorem declsOfVarDecl_et : ∀ (v : VarDecl), declsOfVarDecl (etVarDecl v) = declsOfVarDecl v
  | .mk kind decls => by simp [etVarDecl, declsOfVarDecl, declsOfVarDeclarators_et decls]

theorem declsOfVarDeclarators_et : ∀ (l : List VarDeclarator),
    declsOfVarDeclarators (etVarDeclarators l) = declsOfVarDeclarators l
  | [] => by simp [etVarDeclarators]
  | d :: rest => by
      simp [etVarDeclarators, declsOfVarDeclarators, declsOfVarDeclarator_et d,
        declsOfVarDeclarators_et rest]

theorem declsOfVarDeclarator_et : ∀ (d : VarDeclarator),
    declsOfVarDeclarator (etVarDeclarator d) = declsOfVarDeclarator d
  | .mk sp name init => by simp [etVarDeclarator, declsOfVarDeclarator, findIdsPat_et name]

theorem declsOfClass_et : ∀ (c : Class), declsOfClass (etClass c) = declsOfClass c
  | .mk members superClass => by
      simp [etClass, declsOfClass, declsOfClassMembers_et members,
        declsOfOptExpr_et superClass]

theorem declsOfClassMembers_et : ∀ (l : List ClassMember),
    declsOfClassMembers (etClassMembers l) = declsOfClassMembers l
  | [] => by simp [etClassMembers]
  | m :: rest => by
      simp [etClassMembers, declsOfClassMembers, declsOfClassMember_et m,
        declsOfClassMembers_et rest]

theorem declsOfClassMember_et : ∀ (m : ClassMember),
    declsOfClassMember (etClassMember m) = declsOfClassMember m
  | .method (.mk key f kind) => by
      simp [etClassMember, declsOfClassMember, declsOfPropName_et key, declsOfFunction_et f]
  | .privateMethod (.mk name f kind) => by
      simp [etClassMember, declsOfClassMember, declsOfFunction_et f]
  | .classProp (.mk key value computed ty) => by
      simp [etClassMember, declsOfClassMember, declsOfClassProp, declsOfExpr_et key,
        declsOfOptExpr_et value]
  | .emptyMember => by simp [etClassMember, declsOfClassMember]

theorem declsOfPropName_et : ∀ (k : PropName), declsOfPropName (etPropName k) = declsOfPropName k
  | .ident i => by simp [etPropName, declsOfPropName]
  | .str s => by simp [etPropName, declsOfPropName]
  | .num n => by simp [etPropName, declsOfPropName]
  | .computed e => by simp [etPropName, declsOfPropName, declsOfExpr_et e]

theorem declsOfJsProps_et : ∀ (l : List JsProp), declsOfJsProps (etJsProps l) = declsOfJsProps l
  | [] => by simp [etJsProps]
  | p :: rest => by
      simp [etJsProps, declsOfJsProps, declsOfJsProp_et p, declsOfJsProps_et rest]

theorem declsOfJsProp_et : ∀ (p : JsProp), declsOfJsProp (etJsProp p) = declsOfJsProp p
  | .shorthand i => by simp [etJsProp, declsOfJsProp]
  | .keyValue key value => by
      simp [etJsProp, declsOfJsProp, declsOfPropName_et key, declsOfExpr_et value]
  | .getter key body => by
      simp [etJsProp, declsOfJsProp, declsOfPropName_et key, declsOfOptBlock_et body]
  | .setter s => by simp [etJsProp, declsOfJsProp, declsOfSetterProp_et s]
  | .method key f => by
      simp [etJsProp, declsOfJsProp, declsOfPropName_et key, declsOfFunction_et f]

theorem declsOfSetterProp_et : ∀ (s : SetterProp),
    declsOfSetterProp (etSetterProp s) = declsOfSetterProp s
  | .mk sp key param body => by
      simp [etSetterProp, declsOfSetterProp, declsOfPropName_et key, declsOfPat_et param,
        declsOfOptBlock_et body]

theorem declsOfPat_et : ∀ (p : Pat), declsOfPat (etPat p) = declsOfPat p
  | .ident i ty => by simp [etPat, declsOfPat]
  | .array elems => by simp [etPat, declsOfPat, declsOfPatElems_et elems]
  | .rest p => by simp [etPat, declsOfPat, declsOfPat_et p]
  | .object props => by simp [etPat, declsOfPat, declsOfObjectPatProps_et props]
  | .assign left right => by
      simp [etPat, declsOfPat, declsOfPat_et left, declsOfExpr_et right]
  | .expr e => by simp [etPat, declsOfPat, declsOfExpr_et e]

theorem declsOfPatElems_et : ∀ (l : List (Option Pat)),
    declsOfPatElems (etPatElems l) = declsOfPatElems l
  | [] => by simp [etPatElems]
  | none :: rest => by simp [etPatElems, declsOfPatElems, declsOfPatElems_et rest]
  | some p :: rest => by
      simp [etPatElems, declsOfPatElems, declsOfPat_et p, declsOfPatElems_et rest]

theorem declsOfObjectPatProps_et : ∀ (l : List ObjectPatProp),
    declsOfObjectPatProps (etObjectPatProps l) = declsOfObjectPatProps l
  | [] => by simp [etObjectPatProps]
  | p :: rest => by
      simp [etObjectPatProps, declsOfObjectPatProps, declsOfObjectPatProp_et p,
        declsOfObjectPatProps_et rest]

theorem declsOfObjectPatProp_et : ∀ (p : ObjectPatProp),
    declsOfObjectPatProp (etObjectPatProp p) = declsOfObjectPatProp p
  | .keyValue key p => by
      simp [etObjectPatProp, declsOfObjectPatProp, declsOfPropName_et key, declsOfPat_et p]
  | .assign i value => by
      simp [etObjectPatProp, declsOfObjectPatProp, declsOfOptExpr_et value]
  | .rest p => by simp [etObjectPatProp, declsOfObjectPatProp, declsOfPat_et p]

end

theorem declsOfModuleItem_et : ∀ (m : ModuleItem),
    declsOfModuleItem (etModuleItem m) = declsOfModuleItem m
  | .stmt s => by simp [etModuleItem, declsOfModuleItem, declsOfStmt_et s]
  | .exportDecl d => by simp [etModuleItem, declsOfModuleItem, declsOfDecl_et d]

theorem declsOfModuleItems_et : ∀ (l : List ModuleItem),
    declsOfModuleItems (etModuleItems l) = declsOfModuleItems l
  | [] => by simp [etModuleItems]
  | m :: rest => by
      simp [etModuleItems, declsOfModuleItems, declsOfModuleItem_et m,
        declsOfModuleItems_et rest]

theorem declsOfProgram_et (p : Program) :
    declsOfProgram (eraseTypesProgram p) = declsOfProgram p := by
  cases p
  · simp [eraseTypesProgram, declsOfProgram, declsOfModuleItems_et]
  · simp [eraseTypesProgram, declsOfProgram, declsOfStmts_et]

/-! ## Type erasure and the scanned setter bodies: the scan finds the erased
versions of the same bodies, and the per-body diagnostics are unchanged
because top-level return statements keep their shape and spans. -/

theorem topRetArgSpans_etStmts : ∀ (stmts : List Stmt),
    topRetArgSpans (.mk (etStmts stmts)) = topRetArgSpans (.mk stmts)
  | [] => by simp [etStmts, topRetArgSpans]
  | .ret sp (some e) :: rest => by
      have ih := topRetArgSpans_etStmts rest
      simp only [topRetArgSpans, List.filterMap_cons] at ih ⊢
      simp [etStmts, etStmt, etOptExpr, ih]
  | .ret sp none :: rest => by
      have ih := topRetArgSpans_etStmts rest
      simp only [topRetArgSpans, List.filterMap_cons] at ih ⊢
      simp [etStmts, etStmt, etOptExpr, ih]
  | .block b :: rest => by
      have ih := topRetArgSpans_etStmts rest
      simp only [topRetArgSpans, List.filterMap_cons] at ih ⊢
      simp [etStmts, etStmt, ih]
  | .expr e :: rest => by
      have ih := topRetArgSpans_etStmts rest
      simp only [topRetArgSpans, List.filterMap_cons] at ih ⊢
      simp [etStmts, etStmt, ih]
  | .ifStmt t c a :: rest => by
      have ih := topRetArgSpans_etStmts rest
      simp only [topRetArgSpans, List.filterMap_cons] at ih ⊢
      simp [etStmts, etStmt, ih]
  | .decl d :: rest => by
      have ih := topRetArgSpans_etStmts rest
      simp only [topRetArgSpans, List.filterMap_cons] at ih ⊢
      simp [etStmts, etStmt, ih]
  | .empty :: rest => by
      have ih := topRetArgSpans_etStmts rest
      simp only [topRetArgSpans, List.filterMap_cons] at ih ⊢
      simp [etStmts, etStmt, ih]

theorem topRetArgSpans_et (b : BlockStmt) :
    topRetArgSpans (etBlock b) = topRetArgSpans b := by
  cases b
  simp only [etBlock]
  exact topRetArgSpans_etStmts _

theorem bodyDiags_et (b : BlockStmt) : bodyDiags (etBlock b) = bodyDiags b := by
  simp [bodyDiags, topRetArgSpans_et]

theorem bodiesDiags_map_et : ∀ (l : List BlockStmt),
    bodiesDiags (l.map etBlock) = bodiesDiags l
  | [] => rfl
  | b :: rest => by
      simp [bodiesDiags, bodyDiags_et b, bodiesDiags_map_et rest]

theorem scannedOfMember_et : ∀ (m : ClassMember),
    scannedOfMember (etClassMember m) = (scannedOfMember m).map etBlock
  | .method (.mk key (.mk params none rt) kind) => by
      by_cases hk : kind = MethodKind.setter <;>
        simp [etClassMember, etFunction, etOptBlock, scannedOfMember, hk]
  | .method (.mk key (.mk params (some b) rt) kind) => by
      by_cases hk : kind = MethodKind.setter <;>
        simp [etClassMember, etFunction, etOptBlock, scannedOfMember, hk]
  | .privateMethod (.mk name (.mk params none rt) kind) => by
      by_cases hk : kind = MethodKind.setter <;>
        simp [etClassMember, etFunction, etOptBlock, scannedOfMember, hk]
  | .privateMethod (.mk name (.mk params (some b) rt) kind) => by
      by_cases hk : kind = MethodKind.setter <;>
        simp [etClassMember, etFunction, etOptBlock, scannedOfMember, hk]
  | .classProp p => by
      cases p
      simp [etClassMember, scannedOfMember]
  | .emptyMember => by simp [etClassMember, scannedOfMember]

mutual

theorem scannedOfExpr_et : ∀ (e : Expr),
    scannedOfExpr (etExpr e) = (scannedOfExpr e).map etBlock
  | .ident i => by simp [etExpr, scannedOfExpr]
  | .lit n => by simp [etExpr, scannedOfExpr]
  | .fnExpr name f => by simp [etExpr, scannedOfExpr, scannedOfFunction_et f]
  | .object props => by simp [etExpr, scannedOfExpr, scannedOfJsProps_et props]
  | .classExpr name c => by simp [etExpr, scannedOfExpr, scannedOfClass_et c]

theorem scannedOfFunction_et : ∀ (f : Function),
    scannedOfFunction (etFunction f) = (scannedOfFunction f).map etBlock
  | .mk params body rt => by
      simp [etFunction, scannedOfFunction, scannedOfParams_et params,
        scannedOfOptBlock_et body]

theorem scannedOfParams_et : ∀ (l : List Param),
    scannedOfParams (etParams l) = (scannedOfParams l).map etBlock
  | [] => by simp [etParams, scannedOfParams]
  | p :: rest => by
      simp [etParams, scannedOfParams, scannedOfParam_et p, scannedOfParams_et rest]

theorem scannedOfParam_et : ∀ (p : Param),
    scannedOfParam (etParam p) = (scannedOfParam p).map etBlock
  | .mk pat => by simp [etParam, scannedOfParam, scannedOfPat_et pat]

theorem scannedOfOptBlock_et : ∀ (b : Option BlockStmt),
    scannedOfOptBlock (etOptBlock b) = (scannedOfOptBlock b).map etBlock
  | none => by simp [etOptBlock, scannedOfOptBlock]
  | some b => by simp [etOptBlock, scannedOfOptBlock, scannedOfBlock_et b]

theorem scannedOfBlock_et : ∀ (b : BlockStmt),
    scannedOfBlock (etBlock b) = (scannedOfBlock b).map etBlock
  | .mk stmts => by simp [etBlock, scannedOfBlock, scannedOfStmts_et stmts]

theorem scannedOfStmts_et : ∀ (l : List Stmt),
    scannedOfStmts (etStmts l) = (scannedOfStmts l).map etBlock
  | [] => by simp [etStmts, scannedOfStmts]
  | s :: rest => by
      simp [etStmts, scannedOfStmts, scannedOfStmt_et s, scannedOfStmts_et rest]

theorem scannedOfStmt_et : ∀ (s : Stmt),
    scannedOfStmt (etStmt s) = (scannedOfStmt s).map etBlock
  | .block b => by simp [etStmt, scannedOfStmt, scannedOfBlock_et b]
  | .expr e => by simp [etStmt, scannedOfStmt, scannedOfExpr_et e]
  | .ret sp arg => by simp [etStmt, scannedOfStmt, scannedOfOptExpr_et arg]
  | .ifStmt test cons alt => by
      simp [etStmt, scannedOfStmt, scannedOfExpr_et test, scannedOfStmt_et cons,
        scannedOfOptStmt_et alt]
  | .decl d => by simp [etStmt, scannedOfStmt, scannedOfDecl_et d]
  | .empty => by simp [etStmt, scannedOfStmt]

theorem scannedOfOptStmt_et : ∀ (s : Option Stmt),
    scannedOfOptStmt (etOptStmt s) = (scannedOfOptStmt s).map etBlock
  | none => by simp [etOptStmt, scannedOfOptStmt]
  | some s => by simp [etOptStmt, scannedOfOptStmt, scannedOfStmt_et s]

theorem scannedOfOptExpr_et : ∀ (e : Option Expr),
    scannedOfOptExpr (etOptExpr e) = (scannedOfOptExpr e).map etBlock
  | none => by simp [etOptExpr, scannedOfOptExpr]
  | some e => by simp [etOptExpr, scannedOfOptExpr, scannedOfExpr_et e]

theorem scannedOfDecl_et : ∀ (d : Decl),
    scannedOfDecl (etDecl d) = (scannedOfDecl d).map etBlock
  | .fnDecl i f => by simp [etDecl, scannedOfDecl, scannedOfFunction_et f]
  | .varDecl v => by simp [etDecl, scannedOfDecl, scannedOfVarDecl_et v]
  | .classDecl i c => by simp [etDecl, scannedOfDecl, scannedOfClass_et c]

theorem scannedOfVarDecl_et : ∀ (v : VarDecl),
    scannedOfVarDecl (etVarDecl v) = (scannedOfVarDecl v).map etBlock
  | .mk kind decls => by
      simp [etVarDecl, scannedOfVarDecl, scannedOfVarDeclarators_et decls]

theorem scannedOfVarDeclarators_et : ∀ (l : List VarDeclarator),
    scannedOfVarDeclarators (etVarDeclarators l) = (scannedOfVarDeclarators l).map etBlock
  | [] => by simp [etVarDeclarators, scannedOfVarDeclarators]
  | d :: rest => by
      simp [etVarDeclarators, scannedOfVarDeclarators, scannedOfVarDeclarator_et d,
        scannedOfVarDeclarators_et rest]

theorem scannedOfVarDeclarator_et : ∀ (d : VarDeclarator),
    scannedOfVarDeclarator (etVarDeclarator d) = (scannedOfVarDeclarator d).map etBlock
  | .mk sp name init => by
      simp [etVarDeclarator, scannedOfVarDeclarator, scannedOfPat_et name,
        scannedOfOptExpr_et init]

theorem scannedOfClass_et : ∀ (c : Class),
    scannedOfClass (etClass c) = (scannedOfClass c).map etBlock
  | .mk members superClass => by
      simp [etClass, scannedOfClass, scannedOfClassMembers_et members]

theorem scannedOfClassMembers_et : ∀ (l : List ClassMember),
    scannedOfClassMembers (etClassMembers l) = (scannedOfClassMembers l).map etBlock
  | [] => by simp [etClassMembers, scannedOfClassMembers]
  | m :: rest => by
      simp [etClassMembers, scannedOfClassMembers, scannedOfMember_et m,
        scannedOfClassMembers_et rest]

theorem scannedOfJsProps_et : ∀ (l : List JsProp),
    scannedOfJsProps (etJsProps l) = (scannedOfJsProps l).map etBlock
  | [] => by simp [etJsProps, scannedOfJsProps]
  | p :: rest => by
      simp [etJsProps, scannedOfJsProps, scannedOfJsProp_et p, scannedOfJsProps_et rest]

theorem scannedOfJsProp_et : ∀ (p : JsProp),
    scannedOfJsProp (etJsProp p) = (scannedOfJsProp p).map etBlock
  | .shorthand i => by simp [etJsProp, scannedOfJsProp]
  | .keyValue key value => by
      simp [etJsProp, scannedOfJsProp, scannedOfPropName_et key, scannedOfExpr_et value]
  | .getter key body => by
      simp [etJsProp, scannedOfJsProp, scannedOfPropName_et key, scannedOfOptBlock_et body]
  | .setter s => by simp [etJsProp, scannedOfJsProp, scannedOfSetterProp_et s]
  | .method key f => by
      simp [etJsProp, scannedOfJsProp, scannedOfPropName_et key, scannedOfFunction_et f]

theorem scannedOfSetterProp_et : ∀ (s : SetterProp),
    scannedOfSetterProp (etSetterProp s) = (scannedOfSetterProp s).map etBlock
  | .mk sp key param none => by simp [etSetterProp, etOptBlock, scannedOfSetterProp]
  | .mk sp key param (some b) => by simp [etSetterProp, etOptBlock, scannedOfSetterProp]

theorem scannedOfPropName_et : ∀ (k : PropName),
    scannedOfPropName (etPropName k) = (scannedOfPropName k).map etBlock
  | .ident i => by simp [etPropName, scannedOfPropName]
  | .str s => by simp [etPropName, scannedOfPropName]
  | .num n => by simp [etPropName, scannedOfPropName]
  | .computed e => by simp [etPropName, scannedOfPropName, scannedOfExpr_et e]

theorem scannedOfPat_et : ∀ (p : Pat),
    scannedOfPat (etPat p) = (scannedOfPat p).map etBlock
  | .ident i ty => by simp [etPat, scannedOfPat]
  | .array elems => by simp [etPat, scannedOfPat, scannedOfPatElems_et elems]
  | .rest p => by simp [etPat, scannedOfPat, scannedOfPat_et p]
  | .object props => by simp [etPat, scannedOfPat, scannedOfObjectPatProps_et props]
  | .assign left right => by
      simp [etPat, scannedOfPat, scannedOfPat_et left, scannedOfExpr_et right]
  | .expr e => by simp [etPat, scannedOfPat, scannedOfExpr_et e]

theorem scannedOfPatElems_et : ∀ (l : List (Option Pat)),
    scannedOfPatElems (etPatElems l) = (scannedOfPatElems l).map etBlock
  | [] => by simp [etPatElems, scannedOfPatElems]
  | none :: rest => by simp [etPatElems, scannedOfPatElems, scannedOfPatElems_et rest]
  | some p :: rest => by
      simp [etPatElems, scannedOfPatElems, scannedOfPat_et p, scannedOfPatElems_et rest]

theorem scannedOfObjectPatProps_et : ∀ (l : List ObjectPatProp),
    scannedOfObjectPatProps (etObjectPatProps l) = (scannedOfObjectPatProps l).map etBlock
  | [] => by simp [etObjectPatProps, scannedOfObjectPatProps]
  | p :: rest => by
      simp [etObjectPatProps, scannedOfObjectPatProps, scannedOfObjectPatProp_et p,
        scannedOfObjectPatProps_et rest]

theorem scannedOfObjectPatProp_et : ∀ (p : ObjectPatProp),
    scannedOfObjectPatProp (etObjectPatProp p) = (scannedOfObjectPatProp p).map etBlock
  | .keyValue key p => by
      simp [etObjectPatProp, scannedOfObjectPatProp, scannedOfPropName_et key,
        scannedOfPat_et p]
  | .assign i value => by
      simp [etObjectPatProp, scannedOfObjectPatProp, scannedOfOptExpr_et value]
  | .rest p => by simp [etObjectPatProp, scannedOfObjectPatProp, scannedOfPat_et p]

end

theorem scannedOfModuleItem_et : ∀ (m : ModuleItem),
    scannedOfModuleItem (etModuleItem m) = (scannedOfModuleItem m).map etBlock
  | .stmt s => by simp [etModuleItem, scannedOfModuleItem, scannedOfStmt_et s]
  | .exportDecl d => by simp [etModuleItem, scannedOfModuleItem, scannedOfDecl_et d]

theorem scannedOfModuleItems_et : ∀ (l : List ModuleItem),
    scannedOfModuleItems (etModuleItems l) = (scannedOfModuleItems l).map etBlock
  | [] => by simp [etModuleItems, scannedOfModuleItems]
  | m :: rest => by
      simp [etModuleItems, scannedOfModuleItems, scannedOfModuleItem_et m,
        scannedOfModuleItems_et rest]

theorem scannedOfProgram_et (p : Program) :
    scannedOfProgram (eraseTypesProgram p) = (scannedOfProgram p).map etBlock := by
  cases p
  · simp [eraseTypesProgram, scannedOfProgram, scannedOfModuleItems_et]
  · simp [eraseTypesProgram, scannedOfProgram, scannedOfStmts_et]

/-! ## Every declared identifier occurs outside the type-annotation subtrees -/

mutual

theorem findIdsPat_sub : ∀ (p : Pat) (a : Ident), a ∈ findIdsPat p → a ∈ ntIdentsPat p
  | .ident i ty, a => by
      intro ha
      simpa [ntIdentsPat] using (by simpa [findIdsPat] using ha : a = i)
  | .array elems, a => by
      intro ha
      simp only [findIdsPat] at ha
      simp only [ntIdentsPat]
      exact findIdsElems_sub elems a ha
  | .rest p, a => by
      intro ha
      simp only [findIdsPat] at ha
      simp only [ntIdentsPat]
      exact findIdsPat_sub p a ha
  | .object props, a => by
      intro ha
      simp only [findIdsPat] at ha
      simp only [ntIdentsPat]
      exact findIdsProps_sub props a ha
  | .assign left right, a => by
      intro ha
      simp only [findIdsPat] at ha
      simp only [ntIdentsPat, List.mem_append]
      exact Or.inl (findIdsPat_sub left a ha)
  | .expr e, a => by
      intro ha
      simp [findIdsPat] at ha

theorem findIdsElems_sub : ∀ (l : List (Option Pat)) (a : Ident),
    a ∈ findIdsElems l → a ∈ ntIdentsPatElems l
  | [], a => by
      intro ha
      simp [findIdsElems] at ha
  | none :: rest, a => by
      intro ha
      simp only [findIdsElems] at ha
      simp only [ntIdentsPatElems]
      exact findIdsElems_sub rest a ha
  | some p :: rest, a => by
      intro ha
      simp only [findIdsElems, List.mem_append] at ha
      simp only [ntIdentsPatElems, List.mem_append]
      rcases ha with h | h
      · exact Or.inl (findIdsPat_sub p a h)
      · exact Or.inr (findIdsElems_sub rest a h)

theorem findIdsProps_sub : ∀ (l : List ObjectPatProp) (a : Ident),
    a ∈ findIdsProps l → a ∈ ntIdentsObjectPatProps l
  | [], a => by
      intro ha
      simp [findIdsProps] at ha
  | .keyValue k p :: rest, a => by
      intro ha
      simp only [findIdsProps, List.mem_append] at ha
      simp only [ntIdentsObjectPatProps, ntIdentsObjectPatProp, List.mem_append]
      rcases ha with h | h
      · exact Or.inl (Or.inr (findIdsPat_sub p a h))
      · exact Or.inr (findIdsProps_sub rest a h)
  | .assign i v :: rest, a => by
      intro ha
      simp only [findIdsProps, List.mem_cons] at ha
      simp only [ntIdentsObjectPatProps, ntIdentsObjectPatProp, List.mem_append,
        List.mem_cons]
      rcases ha with h | h
      · exact Or.inl (Or.inl h)
      · exact Or.inr (findIdsProps_sub rest a h)
  | .rest p :: rest, a => by
      intro ha
      simp only [findIdsProps, List.mem_append] at ha
      simp only [ntIdentsObjectPatProps, ntIdentsObjectPatProp, List.mem_append]
      rcases ha with h | h
      · exact Or.inl (findIdsPat_sub p a h)
      · exact Or.inr (findIdsProps_sub rest a h)

end

mutual

theorem declsOfExpr_sub : ∀ (e : Expr) (a : Ident),
    a ∈ declsOfExpr e → a ∈ ntIdentsExpr e
  | .ident i, a => by
      intro ha
      simp [declsOfExpr] at ha
  | .lit n, a => by
      intro ha
      simp [declsOfExpr] at ha
  | .fnExpr none f, a => by
      intro ha
      simp only [declsOfExpr] at ha
      simp only [ntIdentsExpr]
      exact declsOfFunction_sub f a ha
  | .fnExpr (some i) f, a => by
      intro ha
      simp only [declsOfExpr] at ha
      simp only [ntIdentsExpr, List.mem_cons]
      exact Or.inr (declsOfFunction_sub f a ha)
  | .object props, a => by
      intro ha
      simp only [declsOfExpr] at ha
      simp only [ntIdentsExpr]
      exact declsOfJsProps_sub props a ha
  | .classExpr none c, a => by
      intro ha
      simp only [declsOfExpr] at ha
      simp only [ntIdentsExpr]
      exact declsOfClass_sub c a ha
  | .classExpr (some i) c, a => by
      intro ha
      simp only [declsOfExpr] at ha
      simp only [ntIdentsExpr, List.mem_cons]
      exact Or.inr (declsOfClass_sub c a ha)

theorem declsOfFunction_sub : ∀ (f : Function) (a : Ident),
    a ∈ declsOfFunction f → a ∈ ntIdentsFunction f
  | .mk params body rt, a => by
      intro ha
      simp only [declsOfFunction, List.mem_append] at ha
      simp only [ntIdentsFunction, List.mem_append]
      rcases ha with h | h
      · exact Or.inl (declsOfParams_sub params a h)
      · exact Or.inr (declsOfOptBlock_sub body a h)

theorem declsOfParams_sub : ∀ (l : List Param) (a : Ident),
    a ∈ declsOfParams l → a ∈ ntIdentsParams l
  | [], a => by
      intro ha
      simp [declsOfParams] at ha
  | p :: rest, a => by
      intro ha
      simp only [declsOfParams, List.mem_append] at ha
      simp only [ntIdentsParams, List.mem_append]
      rcases ha with h | h
      · exact Or.inl (declsOfParam_sub p a h)
      · exact Or.inr (declsOfParams_sub rest a h)

theorem declsOfParam_sub : ∀ (p : Param) (a : Ident),
    a ∈ declsOfParam p → a ∈ ntIdentsParam p
  | .mk pat, a => by
      intro ha
      simp only [declsOfParam] at ha
      simp only [ntIdentsParam]
      exact findIdsPat_sub pat a ha

theorem declsOfOptBlock_sub : ∀ (b : Option BlockStmt) (a : Ident),
    a ∈ declsOfOptBlock b → a ∈ ntIdentsOptBlock b
  | none, a => by
      intro ha
      simp [declsOfOptBlock] at ha
  | some b, a => by
      intro ha
      simp only [declsOfOptBlock] at ha
      simp only [ntIdentsOptBlock]
      exact declsOfBlock_sub b a ha

theorem declsOfBlock_sub : ∀ (b : BlockStmt) (a : Ident),
    a ∈ declsOfBlock b → a ∈ ntIdentsBlock b
  | .mk stmts, a => by
      intro ha
      simp only [declsOfBlock] at ha
      simp only [ntIdentsBlock]
      exact declsOfStmts_sub stmts a ha

theorem declsOfStmts_sub : ∀ (l : List Stmt) (a : Ident),
    a ∈ declsOfStmts l → a ∈ ntIdentsStmts l
  | [], a => by
      intro ha
      simp [declsOfStmts] at ha
  | s :: rest, a => by
      intro ha
      simp only [declsOfStmts, List.mem_append] at ha
      simp only [ntIdentsStmts, List.mem_append]
      rcases ha with h | h
      · exact Or.inl (declsOfStmt_sub s a h)
      · exact Or.inr (declsOfStmts_sub rest a h)

theorem declsOfStmt_sub : ∀ (s : Stmt) (a : Ident),
    a ∈ declsOfStmt s → a ∈ ntIdentsStmt s
  | .block b, a => by
      intro ha
      simp only [declsOfStmt] at ha
      simp only [ntIdentsStmt]
      exact declsOfBlock_sub b a ha
  | .expr e, a => by
      intro ha
      simp only [declsOfStmt] at ha
      simp only [ntIdentsStmt]
      exact declsOfExpr_sub e a ha
  | .ret sp arg, a => by
      intro ha
      simp only [declsOfStmt] at ha
      simp only [ntIdentsStmt]
      exact declsOfOptExpr_sub arg a ha
  | .ifStmt test cons alt, a => by
      intro ha
      simp only [declsOfStmt, List.mem_append] at ha
      simp only [ntIdentsStmt, List.mem_append]
      rcases ha with (h | h) | h
      · exact Or.inl (Or.inl (declsOfExpr_sub test a h))
      · exact Or.inl (Or.inr (declsOfStmt_sub cons a h))
      · exact Or.inr (declsOfOptStmt_sub alt a h)
  | .decl d, a => by
      intro ha
      simp only [declsOfStmt] at ha
      simp only [ntIdentsStmt]
      exact declsOfDecl_sub d a ha
  | .empty, a => by
      intro ha
      simp [declsOfStmt] at ha

theorem declsOfOptStmt_sub : ∀ (s : Option Stmt) (a : Ident),
    a ∈ declsOfOptStmt s → a ∈ ntIdentsOptStmt s
  | none, a => by
      intro ha
      simp [declsOfOptStmt] at ha
  | some s, a => by
      intro ha
      simp only [declsOfOptStmt] at ha
      simp only [ntIdentsOptStmt]
      exact declsOfStmt_sub s a ha

theorem declsOfOptExpr_sub : ∀ (e : Option Expr) (a : Ident),
    a ∈ declsOfOptExpr e → a ∈ ntIdentsOptExpr e
  | none, a => by
      intro ha
      simp [declsOfOptExpr] at ha
  | some e, a => by
      intro ha
      simp only [declsOfOptExpr] at ha
      simp only [ntIdentsOptExpr]
      exact declsOfExpr_sub e a ha

theorem declsOfDecl_sub : ∀ (d : Decl) (a : Ident),
    a ∈ declsOfDecl d → a ∈ ntIdentsDecl d
  | .fnDecl i (.mk params none rt), a => by
      intro ha
      simp [declsOfDecl, declsOfFnDecl] at ha
  | .fnDecl i (.mk params (some b) rt), a => by
      intro ha
      simp only [declsOfDecl, declsOfFnDecl, List.mem_cons, List.mem_append] at ha
      simp only [ntIdentsDecl, ntIdentsFunction, ntIdentsOptBlock, List.mem_cons,
        List.mem_append]
      rcases ha with h | h | h
      · exact Or.inl h
      · exact Or.inr (Or.inl (declsOfParams_sub params a h))
      · exact Or.inr (Or.inr (declsOfBlock_sub b a h))
  | .varDecl v, a => by
      intro ha
      simp only [declsOfDecl] at ha
      simp only [ntIdentsDecl]
      exact declsOfVarDecl_sub v a ha
  | .classDecl i c, a => by
      intro ha
      simp only [declsOfDecl] at ha
      simp only [ntIdentsDecl, List.mem_cons]
      exact Or.inr (declsOfClass_sub c a ha)

theorem declsOfVarDecl_sub : ∀ (v : VarDecl) (a : Ident),
    a ∈ declsOfVarDecl v → a ∈ ntIdentsVarDecl v
  | .mk kind decls, a => by
      intro ha
      simp only [declsOfVarDecl] at ha
      simp only [ntIdentsVarDecl]
      exact declsOfVarDeclarators_sub decls a ha

theorem declsOfVarDeclarators_sub : ∀ (l : List VarDeclarator) (a : Ident),
    a ∈ declsOfVarDeclarators l → a ∈ ntIdentsVarDeclarators l
  | [], a => by
      intro ha
      simp [declsOfVarDeclarators] at ha
  | d :: rest, a => by
      intro ha
      simp only [declsOfVarDeclarators, List.mem_append] at ha
      simp only [ntIdentsVarDeclarators, List.mem_append]
      rcases ha with h | h
      · exact Or.inl (declsOfVarDeclarator_sub d a h)
      · exact Or.inr (declsOfVarDeclarators_sub rest a h)

theorem declsOfVarDeclarator_sub : ∀ (d : VarDeclarator) (a : Ident),
    a ∈ declsOfVarDeclarator d → a ∈ ntIdentsVarDeclarator d
  | .mk sp name init, a => by
      intro ha
      simp only [declsOfVarDeclarator] at ha
      simp only [ntIdentsVarDeclarator, List.mem_append]
      exact Or.inl (findIdsPat_sub name a ha)

theorem declsOfClass_sub : ∀ (c : Class) (a : Ident),
    a ∈ declsOfClass c → a ∈ ntIdentsClass c
  | .mk members superClass, a => by
      intro ha
      simp only [declsOfClass, List.mem_append] at ha
      simp only [ntIdentsClass, List.mem_append]
      rcases ha with h | h
      · exact Or.inl (declsOfClassMembers_sub members a h)
      · exact Or.inr (declsOfOptExpr_sub superClass a h)

theorem declsOfClassMembers_sub : ∀ (l : List ClassMember) (a : Ident),
    a ∈ declsOfClassMembers l → a ∈ ntIdentsClassMembers l
  | [], a => by
      intro ha
      simp [declsOfClassMembers] at ha
  | m :: rest, a => by
      intro ha
      simp only [declsOfClassMembers, List.mem_append] at ha
      simp only [ntIdentsClassMembers, List.mem_append]
      rcases ha with h | h
      · exact Or.inl (declsOfClassMember_sub m a h)
      · exact Or.inr (declsOfClassMembers_sub rest a h)

theorem declsOfClassMember_sub : ∀ (m : ClassMember) (a : Ident),
    a ∈ declsOfClassMember m → a ∈ ntIdentsClassMember m
  | .method (.mk key f kind), a => by
      intro ha
      simp only [declsOfClassMember, List.mem_append] at ha
      simp only [ntIdentsClassMember, List.mem_append]
      rcases ha with h | h
      · exact Or.inl (declsOfPropName_sub key a h)
      · exact Or.inr (declsOfFunction_sub f a h)
  | .privateMethod (.mk name f kind), a => by
      intro ha
      simp only [declsOfClassMember] at ha
      simp only [ntIdentsClassMember]
      exact declsOfFunction_sub f a ha
  | .classProp (.mk key value false ty), a => by
      intro ha
      simp only [declsOfClassMember, declsOfClassProp, Bool.false_eq_true, if_false,
        List.nil_append] at ha
      simp only [ntIdentsClassMember, List.mem_append]
      exact Or.inr (declsOfOptExpr_sub value a ha)
  | .classProp (.mk key value true ty), a => by
      intro ha
      simp only [declsOfClassMember, declsOfClassProp, if_true, List.mem_append] at ha
      simp only [ntIdentsClassMember, List.mem_append]
      rcases ha with h | h
      · exact Or.inl (declsOfExpr_sub key a h)
      · exact Or.inr (declsOfOptExpr_sub value a h)
  | .emptyMember, a => by
      intro ha
      simp [declsOfClassMember] at ha

theorem declsOfPropName_sub : ∀ (k : PropName) (a : Ident),
    a ∈ declsOfPropName k → a ∈ ntIdentsPropName k
  | .ident i, a => by
      intro ha
      simp [declsOfPropName] at ha
  | .str s, a => by
      intro ha
      simp [declsOfPropName] at ha
  | .num n, a => by
      intro ha
      simp [declsOfPropName] at ha
  | .computed e, a => by
      intro ha
      simp only [declsOfPropName] at ha
      simp only [ntIdentsPropName]
      exact declsOfExpr_sub e a ha

theorem declsOfJsProps_sub : ∀ (l : List JsProp) (a : Ident),
    a ∈ declsOfJsProps l → a ∈ ntIdentsJsProps l
  | [], a => by
      intro ha
      simp [declsOfJsProps] at ha
  | p :: rest, a => by
      intro ha
      simp only [declsOfJsProps, List.mem_append] at ha
      simp only [ntIdentsJsProps, List.mem_append]
      rcases ha with h | h
      · exact Or.inl (declsOfJsProp_sub p a h)
      · exact Or.inr (declsOfJsProps_sub rest a h)

theorem declsOfJsProp_sub : ∀ (p : JsProp) (a : Ident),
    a ∈ declsOfJsProp p → a ∈ ntIdentsJsProp p
  | .shorthand i, a => by
      intro ha
      simp [declsOfJsProp] at ha
  | .keyValue key value, a => by
      intro ha
      simp only [declsOfJsProp, List.mem_append] at ha
      simp only [ntIdentsJsProp, List.mem_append]
      rcases ha with h | h
      · exact Or.inl (declsOfPropName_sub key a h)
      · exact Or.inr (declsOfExpr_sub value a h)
  | .getter key body, a => by
      intro ha
      simp only [declsOfJsProp, List.mem_append] at ha
      simp only [ntIdentsJsProp, List.mem_append]
      rcases ha with h | h
      · exact Or.inl (declsOfPropName_sub key a h)
      · exact Or.inr (declsOfOptBlock_sub body a h)
  | .setter s, a => by
      intro ha
      simp only [declsOfJsProp] at ha
      simp only [ntIdentsJsProp]
      exact declsOfSetterProp_sub s a ha
  | .method key f, a => by
      intro ha
      simp only [declsOfJsProp, List.mem_append] at ha
      simp only [ntIdentsJsProp, List.mem_append]
      rcases ha with h | h
      · exact Or.inl (declsOfPropName_sub key a h)
      · exact Or.inr (declsOfFunction_sub f a h)

theorem declsOfSetterProp_sub : ∀ (s : SetterProp) (a : Ident),
    a ∈ declsOfSetterProp s → a ∈ ntIdentsSetterProp s
  | .mk sp key param body, a => by
      intro ha
      simp only [declsOfSetterProp, List.mem_append] at ha
      simp only [ntIdentsSetterProp, List.mem_append]
      rcases ha with (h | h) | h
      · exact Or.inl (Or.inl (declsOfPropName_sub key a h))
      · exact Or.inl (Or.inr (declsOfPat_sub param a h))
      · exact Or.inr (declsOfOptBlock_sub body a h)

theorem declsOfPat_sub : ∀ (p : Pat) (a : Ident),
    a ∈ declsOfPat p → a ∈ ntIdentsPat p
  | .ident i ty, a => by
      intro ha
      simp [declsOfPat] at ha
  | .array elems, a => by
      intro ha
      simp only [declsOfPat] at ha
      simp only [ntIdentsPat]
      exact declsOfPatElems_sub elems a ha
  | .rest p, a => by
      intro ha
      simp only [declsOfPat] at ha
      simp only [ntIdentsPat]
      exact declsOfPat_sub p a ha
  | .object props, a => by
      intro ha
      simp only [declsOfPat] at ha
      simp only [ntIdentsPat]
      exact declsOfObjectPatProps_sub props a ha
  | .assign left right, a => by
      intro ha
      simp only [declsOfPat, List.mem_append] at ha
      simp only [ntIdentsPat, List.mem_append]
      rcases ha with h | h
      · exact Or.inl (declsOfPat_sub left a h)
      · exact Or.inr (declsOfExpr_sub right a h)
  | .expr e, a => by
      intro ha
      simp only [declsOfPat] at ha
      simp only [ntIdentsPat]
      exact declsOfExpr_sub e a ha

theorem declsOfPatElems_sub : ∀ (l : List (Option Pat)) (a : Ident),
    a ∈ declsOfPatElems l → a ∈ ntIdentsPatElems l
  | [], a => by
      intro ha
      simp [declsOfPatElems] at ha
  | none :: rest, a => by
      intro ha
      simp only [declsOfPatElems] at ha
      simp only [ntIdentsPatElems]
      exact declsOfPatElems_sub rest a ha
  | some p :: rest, a => by
      intro ha
      simp only [declsOfPatElems, List.mem_append] at ha
      simp only [ntIdentsPatElems, List.mem_append]
      rcases ha with h | h
      · exact Or.inl (declsOfPat_sub p a h)
      · exact Or.inr (declsOfPatElems_sub rest a h)

theorem declsOfObjectPatProps_sub : ∀ (l : List ObjectPatProp) (a : Ident),
    a ∈ declsOfObjectPatProps l → a ∈ ntIdentsObjectPatProps l
  | [], a => by
      intro ha
      simp [declsOfObjectPatProps] at ha
  | p :: rest, a => by
      intro ha
      simp only [declsOfObjectPatProps, List.mem_append] at ha
      simp only [ntIdentsObjectPatProps, List.mem_append]
      rcases ha with h | h
      · exact Or.inl (declsOfObjectPatProp_sub p a h)
      · exact Or.inr (declsOfObjectPatProps_sub rest a h)

theorem declsOfObjectPatProp_sub : ∀ (p : ObjectPatProp) (a : Ident),
    a ∈ declsOfObjectPatProp p → a ∈ ntIdentsObjectPatProp p
  | .keyValue key p, a => by
      intro ha
      simp only [declsOfObjectPatProp, List.mem_append] at ha
      simp only [ntIdentsObjectPatProp, List.mem_append]
      rcases ha with h | h
      · exact Or.inl (declsOfPropName_sub key a h)
      · exact Or.inr (declsOfPat_sub p a h)
  | .assign i value, a => by
      intro ha
      simp only [declsOfObjectPatProp] at ha
      simp only [ntIdentsObjectPatProp, List.mem_cons]
      exact Or.inr (declsOfOptExpr_sub value a ha)
  | .rest p, a => by
      intro ha
      simp only [declsOfObjectPatProp] at ha
      simp only [ntIdentsObjectPatProp]
      exact declsOfPat_sub p a ha

end

theorem declsOfModuleItem_sub : ∀ (m : ModuleItem) (a : Ident),
    a ∈ declsOfModuleItem m → a ∈ ntIdentsModuleItem m
  | .stmt s, a => by
      intro ha
      simp only [declsOfModuleItem] at ha
      simp only [ntIdentsModuleItem]
      exact declsOfStmt_sub s a ha
  | .exportDecl d, a => by
      intro ha
      simp only [declsOfModuleItem] at ha
      simp only [ntIdentsModuleItem]
      exact declsOfDecl_sub d a ha

theorem declsOfModuleItems_sub : ∀ (l : List ModuleItem) (a : Ident),
    a ∈ declsOfModuleItems l → a ∈ ntIdentsModuleItems l
  | [], a => by
      intro ha
      simp [declsOfModuleItems] at ha
  | m :: rest, a => by
      intro ha
      simp only [declsOfModuleItems, List.mem_append] at ha
      simp only [ntIdentsModuleItems, List.mem_append]
      rcases ha with h | h
      · exact Or.inl (declsOfModuleItem_sub m a h)
      · exact Or.inr (declsOfModuleItems_sub rest a h)

theorem declsOfProgram_sub (p : Program) (a : Ident) :
    a ∈ declsOfProgram p → a ∈ ntIdentsProgram p := by
  cases p
  · exact declsOfModuleItems_sub _ a
  · exact declsOfStmts_sub _ a

/-- Claim C8: both rules are blind to type-annotation subtrees — erasing all
of them changes neither rule's output and not even the declaration sequence —
and every declared identifier, as well as the span of every emitted
duplicate-binding diagnostic, comes from an identifier occurrence outside the
type-annotation subtrees.  An identifier occurring only inside a type
annotation is therefore never declared into the Binding Set and never
produces a diagnostic. -/
theorem claim_C8 (p : Program) :
    noRedeclareLintProgram [] (eraseTypesProgram p) = noRedeclareLintProgram [] p
  ∧ noSetterReturnLintProgram [] (eraseTypesProgram p) = noSetterReturnLintProgram [] p
  ∧ declsOfProgram (eraseTypesProgram p) = declsOfProgram p
  ∧ (∀ i ∈ declsOfProgram p, i ∈ ntIdentsProgram p)
  ∧ (∀ d ∈ noRedeclareLintProgram [] p, d.span ∈ (ntIdentsProgram p).map Ident.span) := by
  refine ⟨?_, ?_, declsOfProgram_et p, ?_, ?_⟩
  · rw [noRedeclareLintProgram_eq, noRedeclareLintProgram_eq, declsOfProgram_et]
  · rw [noSetterReturnLintProgram_eq, noSetterReturnLintProgram_eq, scannedOfProgram_et,
      bodiesDiags_map_et]
  · intro i hi
    exact declsOfProgram_sub p i hi
  · intro d hd
    rw [show noRedeclareLintProgram [] p = noRedeclareLint p from rfl,
      noRedeclareLint_eq] at hd
    rcases List.mem_map.mp hd with ⟨i, hi, hdef⟩
    have hspan : d.span = i.span := by rw [← hdef]; rfl
    rw [hspan]
    exact List.mem_map_of_mem Ident.span
      (declsOfProgram_sub p i (dupsFrom_subset [] (declsOfProgram p) hi))

/-- `var a: T = 1; var a = 2;` — T occurs only inside a type annotation. -/
def wTyIdent : Ident := ⟨⟨8, 9⟩, "T", 0⟩

def wProgTyped : Program :=
  .script
    [ .decl (.varDecl (.mk .varKind
        [.mk ⟨0, 14⟩ (.ident (wIdent 4 "a" 0) (some (.tref wTyIdent))) (some (.lit 1))]))
    , .decl (.varDecl (.mk .varKind
        [.mk ⟨15, 26⟩ (.ident (wIdent 19 "a" 0) none) (some (.lit 2))])) ]

theorem claim_C8_witness :
    ((wIdent 4 "a" 0) ∈ declsOfProgram wProgTyped
      ∧ redeclareDiag (wIdent 19 "a" 0) ∈ noRedeclareLintProgram [] wProgTyped
      ∧ wTyIdent ∉ ntIdentsProgram wProgTyped
      ∧ wTyIdent ∉ declsOfProgram wProgTyped)
  ∧ ((wIdent 4 "a" 0) ∈ ntIdentsProgram wProgTyped
      ∧ (redeclareDiag (wIdent 19 "a" 0)).span ∈ (ntIdentsProgram wProgTyped).map Ident.span
      ∧ noRedeclareLintProgram [] (eraseTypesProgram wProgTyped)
          = noRedeclareLintProgram [] wProgTyped
      ∧ noSetterReturnLintProgram [] (eraseTypesProgram wProgTyped)
          = noSetterReturnLintProgram [] wProgTyped) :=
  ⟨⟨by decide, by decide, by decide, by decide⟩,
   ⟨(claim_C8 wProgTyped).2.2.2.1 (wIdent 4 "a" 0) (by decide),
    (claim_C8 wProgTyped).2.2.2.2 (redeclareDiag (wIdent 19 "a" 0)) (by decide),
    (claim_C8 wProgTyped).1,
    (claim_C8 wProgTyped).2.1⟩⟩

end DenoLint
